import Mathlib

/-!
Verification development for the wikiExplorer core: the multi-signal ranker
(`backend/core/ranking.py`) and the cross-edge connectivity engine
(`backend/core/cross_edges.py`), with the persisted edge cache of
`backend/models/__init__.py`.

Modelling conventions: Python floats become `ℚ` where the source only does
field arithmetic and comparisons, and `ℝ` where the source uses `math.log10`
or fractional powers; the SQLAlchemy `CachedEdge` table becomes a
`List CachedEdge`; the external sentence-transformer similarity
(`util.cos_sim`) and the FAISS index (`reconstruct`, `can_reconstruct`) are
black-box collaborators bundled in a `SearchEngine` structure; reconstruction
failure is `Option.none`; the `ValueError` an `int(...)` conversion raises is
an `Except.error`.  A second database argument `interDb` holds rows written by
concurrent callers between this call's cache probe and its commit, so the
uniqueness-conflict path of the persistence phase is reachable; a purely
sequential call is `interDb = []`.
-/

namespace WikiExplorer

/-! ### Ranking: `backend/core/ranking.py` -/

/-- `Config.WEIGHT_SEMANTIC` from `backend/config.py`. -/
def WEIGHT_SEMANTIC : ℝ := 0.30

/-- `Config.WEIGHT_PAGERANK` from `backend/config.py`. -/
def WEIGHT_PAGERANK : ℝ := 0.50

/-- `Config.WEIGHT_PAGEVIEWS` from `backend/config.py`. -/
def WEIGHT_PAGEVIEWS : ℝ := 0.15

/-- `Config.WEIGHT_TITLE_MATCH` from `backend/config.py`. -/
def WEIGHT_TITLE_MATCH : ℝ := 0.05

/-- `Config.EPSILON` from `backend/config.py`. -/
def EPSILON : ℝ := 1e-8

/-- `normalize_pagerank`: `None` or nonpositive scores map to 0, otherwise
`score / 100` with no upper clamp. -/
def normalize_pagerank (pagerank_score : Option ℚ) : ℚ :=
  match pagerank_score with
  | none => 0
  | some p => if p ≤ 0 then 0 else p / 100

/-- `normalize_pageviews`: missing or zero counts map to 0, counts below 100
map to the constant `0.1`, otherwise `(log10 n - 2) / 5` clamped to `[0, 1]`. -/
noncomputable def normalize_pageviews (pageview_count : Option ℕ) : ℝ :=
  match pageview_count with
  | none => 0
  | some n =>
    if n < 1 then 0
    else if n < 100 then 0.1
    else min 1 (max 0 ((Real.logb 10 n - 2) / 5))

/-- Python `str.lower` on a character list. -/
def lowerChars (l : List Char) : List Char := l.map Char.toLower

/-- Python `.replace('_', ' ')` on a character list. -/
def underscoreToSpace (l : List Char) : List Char :=
  l.map (fun c => if c = '_' then ' ' else c)

/-- Helper of `wordsOf`: split on whitespace runs, accumulating the current
word reversed. -/
def wordsAux : List Char → List Char → List (List Char)
  | [], acc => if acc = [] then [] else [acc.reverse]
  | c :: cs, acc =>
    if c.isWhitespace then
      if acc = [] then wordsAux cs [] else acc.reverse :: wordsAux cs []
    else wordsAux cs (c :: acc)

/-- Python no-argument `str.split`: split on whitespace, dropping empties. -/
def wordsOf (l : List Char) : List (List Char) := wordsAux l []

/-- Whether `n` occurs at the front of `hay` (character lists). -/
def leadsWith : List Char → List Char → Bool
  | [], _ => true
  | _ :: _, [] => false
  | a :: as, b :: bs => a == b && leadsWith as bs

/-- Python `needle in hay` (substring occurrence), on char lists. -/
def hasSub (n : List Char) : List Char → Bool
  | [] => leadsWith n []
  | c :: cs => leadsWith n (c :: cs) || hasSub n cs

/-- Helper of `splitOnSeq`: split at each leftmost occurrence of `sep`. The
fuel argument only forces structural recursion; it starts at the text length
and each step consumes at least one character. -/
def splitSeqAux (sep : List Char) : ℕ → List Char → List Char → List (List Char)
  | _, [], acc => [acc.reverse]
  | 0, l, acc => [acc.reverse ++ l]
  | fuel + 1, c :: cs, acc =>
    if leadsWith sep (c :: cs) ∧ 0 < sep.length then
      acc.reverse :: splitSeqAux sep fuel (List.drop (sep.length - 1) cs) []
    else
      splitSeqAux sep fuel cs (c :: acc)

/-- Python `str.split(sep)` with a nonempty separator, on char lists. -/
def splitOnSeq (sep l : List Char) : List (List Char) := splitSeqAux sep l.length l []

/-- The fixed gazetteer token list of `calculate_title_match_score`. -/
def place_indicators : List String :=
  ["africa", "asia", "europe", "america", "states", "kingdom",
   "china", "india", "russia", "france", "germany", "japan",
   "canada", "australia", "brazil", "mexico", "italy", "spain",
   "california", "texas", "york", "london", "paris", "tokyo"]

/-- The meta prefixes penalized in `calculate_title_match_score`. -/
def meta_prefixes : List String :=
  ["list of", "index of", "glossary of", "timeline of",
   "outline of", "history of", "bibliography of"]

/-- Python builtin `min` on rationals (kernel-reducible ite form). -/
def pyMin (a b : ℚ) : ℚ := if a ≤ b then a else b

/-- Python builtin `max` on rationals (kernel-reducible ite form). -/
def pyMax (a b : ℚ) : ℚ := if b ≤ a then a else b

/-- `re.match(r'^\d{4}', s)`: the text starts with four digits. -/
def startsWithYear (l : List Char) : Bool :=
  (l.take 4).length = 4 && (l.take 4).all Char.isDigit

/-- `title.lower().replace('_', ' ')` of `calculate_title_match_score`. -/
def titleLower (title : String) : List Char := underscoreToSpace (lowerChars title.toList)

/-- `query.lower()` of `calculate_title_match_score`. -/
def queryLower (query : String) : List Char := lowerChars query.toList

/-- The adjusted Jaccard value `base_score` of `calculate_title_match_score`
on the non-early-return path, before the final clamp: token-set Jaccard with
the prefix/substring boost, the " in <place>" gazetteer penalty, the
leading-year penalty and the meta-prefix penalty. -/
def tms_base (title query : String) : ℚ :=
  let title_lower := titleLower title
  let query_lower := queryLower query
  let title_words := (wordsOf title_lower).dedup
  let query_words := (wordsOf query_lower).dedup
  let inter := (title_words.filter (fun w => w ∈ query_words)).length
  let uni := ((title_words ++ query_words).dedup).length
  let base0 : ℚ := (inter : ℚ) / (uni : ℚ)
  let base1 :=
    if leadsWith query_lower title_lower ∨ hasSub query_lower title_lower
    then pyMin 1 (base0 * (3 / 2)) else base0
  let base2 :=
    if hasSub " in ".toList title_lower ∧ (splitOnSeq " in ".toList title_lower).length = 2 ∧
        place_indicators.any
          (fun p => hasSub p.toList ((splitOnSeq " in ".toList title_lower).getD 1 []))
    then base1 * (1 / 2) else base1
  let base3 := if startsWithYear title_lower then base2 * (2 / 5) else base2
  if meta_prefixes.any (fun p => leadsWith p.toList title_lower)
  then base3 * (1 / 10) else base3

/-- `calculate_title_match_score`: token-set Jaccard with exact-match,
prefix/substring, " in <place>", leading-year and meta-prefix adjustments,
clamped to `[0, 1]`. -/
def calculate_title_match_score (title query : String) : ℚ :=
  if (wordsOf (titleLower title)).dedup = [] then 0
  else if (((wordsOf (titleLower title)).dedup ++ (wordsOf (queryLower query)).dedup).dedup).length = 0
  then 0
  else if titleLower title = queryLower query then 1
  else pyMin 1 (pyMax 0 (tms_base title query))

/-- `is_meta_page`: reserved namespace prefixes and disambiguation markers. -/
def is_meta_page (title : String) : Bool :=
  let lower := lowerChars title.toList
  (["wikipedia:", "template:", "category:", "portal:", "help:",
    "user:", "talk:", "file:", "mediawiki:", "draft:"].any
      (fun p => leadsWith p.toList lower)) || hasSub "(disambiguation)".toList lower

/-- The fusion step of `calculate_multisignal_score`: epsilon-floor each
normalized signal, combine by the weighted geometric mean, then halve the
score when both popularity signals are below the obscurity cutoffs. -/
noncomputable def fuseScore (sem_norm pr_norm pv_norm title_norm : ℝ) : ℝ :=
  let s := max sem_norm EPSILON
  let p := max pr_norm EPSILON
  let v := max pv_norm EPSILON
  let t := max title_norm EPSILON
  let score := s ^ WEIGHT_SEMANTIC * p ^ WEIGHT_PAGERANK *
    v ^ WEIGHT_PAGEVIEWS * t ^ WEIGHT_TITLE_MATCH
  if v < 0.2 ∧ p < 0.1 then score * 0.5 else score

/-- `calculate_multisignal_score`: normalize the four raw signals, then fuse. -/
noncomputable def calculate_multisignal_score (semantic_similarity : ℝ)
    (pagerank_score : Option ℚ) (pageview_count : Option ℕ)
    (title query : String) : ℝ :=
  fuseScore semantic_similarity ((normalize_pagerank pagerank_score : ℚ) : ℝ)
    (normalize_pageviews pageview_count)
    ((calculate_title_match_score title query : ℚ) : ℝ)

/-! ### Data model: `backend/models/__init__.py` -/

/-- A row of the `cached_edges` table, composite-keyed on
`(source_id, target_id)`, with provenance columns. -/
structure CachedEdge where
  source_id : ℤ
  target_id : ℤ
  score : ℚ
  model_version : String
  created_by_user_id : Option ℕ
deriving Repr, DecidableEq

/-- An edge of the engine's return value, keyed by resolved titles. -/
structure OutEdge where
  source : String
  target : String
  score : ℚ
deriving Repr, DecidableEq

/-- An entry of the engine's local `edges_to_save` buffer. -/
structure EdgeData where
  source_id : ℤ
  target_id : ℤ
  score : ℚ
deriving Repr, DecidableEq

/-- The external collaborators of the engine: the FAISS index capability flag
and reconstruction, the sentence-transformer cosine similarity, and the
metadata store's `article_id → title` lookup. -/
structure SearchEngine (V : Type) where
  can_reconstruct : Bool
  reconstruct : ℤ → Option V
  cos_sim : V → V → ℚ
  titles : ℤ → Option String

/-! ### Connectivity engine: `backend/core/cross_edges.py` -/

/-- A caller-supplied node id: already an `int`, or a string Python would pass
through `int(...)`. -/
inductive RawId where
  | i (n : ℤ)
  | s (str : String)
deriving Repr, DecidableEq

/-- Digit-string parse: `some` of the value when every character is a digit
and the text is nonempty. -/
def digitsToNat (l : List Char) : Option ℕ :=
  if l ≠ [] ∧ l.all Char.isDigit
  then some (l.foldl (fun acc c => acc * 10 + (c.toNat - 48)) 0)
  else none

/-- Python `int(...)` on a raw id; `none` models the raised `ValueError`. -/
def RawId.toInt : RawId → Option ℤ
  | .i n => some n
  | .s st =>
    match st.toList with
    | '-' :: rest => (digitsToNat rest).map (fun n => -(n : ℤ))
    | l => (digitsToNat l).map (fun n => (n : ℤ))

/-- Convert every raw id, failing (like the uncaught `ValueError`) when any
single conversion fails. -/
def mapToInt : List RawId → Option (List ℤ)
  | [] => some []
  | r :: rs =>
    match r.toInt, mapToInt rs with
    | some n, some ns => some (n :: ns)
    | _, _ => none

/-- Python `set(...)` construction, keeping first-occurrence order. -/
def dedupList : List ℤ → List ℤ
  | [] => []
  | x :: xs => x :: (dedupList xs).filter (fun y => y ≠ x)

/-- `tuple(sorted([a, b]))`. -/
def sortPair (a b : ℤ) : ℤ × ℤ := if a ≤ b then (a, b) else (b, a)

/-- The accumulated `combined_edges` dict: an insertion-ordered association
list from canonical pairs to scores. -/
abbrev EdgeDict := List ((ℤ × ℤ) × ℚ)

/-- Python dict key membership. -/
def hasKey (d : EdgeDict) (k : ℤ × ℤ) : Bool := d.any (fun p => decide (p.1 = k))

/-- Python dict assignment `d[k] = v`: update in place, else append. -/
def dictSet (d : EdgeDict) (k : ℤ × ℤ) (v : ℚ) : EdgeDict :=
  match d with
  | [] => [(k, v)]
  | p :: rest => if p.1 = k then (k, v) :: rest else p :: dictSet rest k v

/-- Python `set.add`. -/
def insertResolved (l : List ℤ) (n : ℤ) : List ℤ := if n ∈ l then l else l ++ [n]

/-- One cached row of the probe loop (Step A): keep the row when the endpoint
opposite its new node is itself new or existing, recording the new endpoint
as resolved. -/
def probeStep (newIds exIds : List ℤ) (st : EdgeDict × List ℤ) (row : CachedEdge) :
    EdgeDict × List ℤ :=
  if row.source_id ∈ newIds ∨ row.target_id ∈ newIds then
    let node_id := if row.source_id ∈ newIds then row.source_id else row.target_id
    let other_id := if row.source_id ∈ newIds then row.target_id else row.source_id
    if other_id ∈ exIds ∨ other_id ∈ newIds then
      (dictSet st.1 (sortPair row.source_id row.target_id) row.score,
       insertResolved st.2 node_id)
    else st
  else st

/-- Step A, the cache probe: fold over every persisted row touching a new id. -/
def probePhase (db : List CachedEdge) (newIds exIds : List ℤ) : EdgeDict × List ℤ :=
  db.foldl (probeStep newIds exIds) ([], [])

/-- Extraction state: the combined dict plus the `edges_to_save` buffer. -/
abbrev CState := EdgeDict × List EdgeData

/-- The inner loop of `extract_edges` over one row's above-threshold
candidates (already sorted descending): stop at `max_edges_per_node`, skip
self-pairs without counting, count duplicate canonical pairs without adding. -/
def rowLoop (maxPer : ℕ) (A : ℤ) : List (ℤ × ℚ) → ℕ → CState → CState
  | [], _, st => st
  | (t, s) :: rest, count, st =>
    if maxPer ≤ count then st
    else if A = t then rowLoop maxPer A rest count st
    else
      let key := sortPair A t
      if hasKey st.1 key then rowLoop maxPer A rest (count + 1) st
      else rowLoop maxPer A rest (count + 1)
        (dictSet st.1 key s, st.2 ++ [⟨key.1, key.2, s⟩])

/-- Sorted insertion for descending score order. -/
def insertDesc (x : ℤ × ℚ) : List (ℤ × ℚ) → List (ℤ × ℚ)
  | [] => [x]
  | y :: ys => if y.2 < x.2 then x :: y :: ys else y :: insertDesc x ys

/-- `np.argsort(...)[::-1]` over one row: scores sorted descending. -/
def sortDesc : List (ℤ × ℚ) → List (ℤ × ℚ)
  | [] => []
  | x :: xs => insertDesc x (sortDesc xs)

/-- One row of `extract_edges`: filter the row to scores strictly above the
threshold, sort descending, then run the capped loop. -/
def extractRow (threshold : ℚ) (maxPer : ℕ) (A : ℤ) (cands : List (ℤ × ℚ))
    (st : CState) : CState :=
  rowLoop maxPer A (sortDesc (cands.filter (fun c => threshold < c.2))) 0 st

/-- `extract_edges` over a whole similarity matrix: one capped row per source. -/
def extract_edges {V : Type} (eng : SearchEngine V) (threshold : ℚ) (maxPer : ℕ)
    (sources targets : List (ℤ × V)) (st : CState) : CState :=
  sources.foldl
    (fun st p =>
      extractRow threshold maxPer p.1
        (targets.map (fun q => (q.1, eng.cos_sim p.2 q.2))) st)
    st

/-- `get_vectors`: reconstruct each id, silently dropping failures. -/
def get_vectors {V : Type} (eng : SearchEngine V) (ids : List ℤ) : List (ℤ × V) :=
  ids.filterMap (fun i => (eng.reconstruct i).map (fun v => (i, v)))

/-- Step B of `calculate_global_cross_edges`: the missing-vs-missing pass (a
self matrix needs more than one reconstructed vector) followed by the
missing-vs-context pass (both operand sets nonempty), starting from the
probed dict and an empty `edges_to_save` buffer. -/
def computePhase {V : Type} (eng : SearchEngine V) (pr : EdgeDict × List ℤ)
    (toCompute exIds : List ℤ) (threshold : ℚ) (maxPer : ℕ) : CState :=
  if 0 < (get_vectors eng toCompute).length ∧
      0 < (get_vectors eng (exIds ++ pr.2)).length then
    extract_edges eng threshold maxPer (get_vectors eng toCompute)
      (get_vectors eng (exIds ++ pr.2))
      (if 1 < (get_vectors eng toCompute).length then
        extract_edges eng threshold maxPer (get_vectors eng toCompute)
          (get_vectors eng toCompute) (pr.1, [])
      else (pr.1, []))
  else
    if 1 < (get_vectors eng toCompute).length then
      extract_edges eng threshold maxPer (get_vectors eng toCompute)
        (get_vectors eng toCompute) (pr.1, [])
    else (pr.1, [])

/-- Steps A-B of `calculate_global_cross_edges`: probe the cache, then compute
the similarity matrices for the unresolved new ids (skipped entirely without
reconstruction capability), returning the combined dict and the
`edges_to_save` buffer. -/
def connectEdges {V : Type} (eng : SearchEngine V) (db : List CachedEdge)
    (newIds exIds : List ℤ) (threshold : ℚ) (maxPer : ℕ) : CState :=
  if eng.can_reconstruct ∧
      newIds.filter (fun n => ¬ n ∈ (probePhase db newIds exIds).2) ≠ [] then
    computePhase eng (probePhase db newIds exIds)
      (newIds.filter (fun n => ¬ n ∈ (probePhase db newIds exIds).2)) exIds
      threshold maxPer
  else ((probePhase db newIds exIds).1, [])

/-- Exact-key row lookup, as `CachedEdge.query.filter_by(source_id=..,
target_id=..)`. -/
def dbHasKey (db : List CachedEdge) (s t : ℤ) : Bool :=
  db.any (fun r => decide (r.source_id = s) && decide (r.target_id = t))

/-- Step C, persistence: re-check each buffered edge against the probe-time
table, stage the missing ones, and commit them in one transaction against the
commit-time table `commitDb`; a primary-key conflict rolls the whole batch
back and is swallowed. -/
def persistEdges (checkDb commitDb : List CachedEdge) (toSave : List EdgeData)
    (user : Option ℕ) : List CachedEdge :=
  if ((toSave.filter (fun e => !dbHasKey checkDb e.source_id e.target_id)).map
        (fun e => (e.source_id, e.target_id))).Nodup ∧
      ∀ e ∈ toSave.filter (fun e => !dbHasKey checkDb e.source_id e.target_id),
        dbHasKey commitDb e.source_id e.target_id = false then
    commitDb ++ (toSave.filter (fun e => !dbHasKey checkDb e.source_id e.target_id)).map
      (fun e => ⟨e.source_id, e.target_id, e.score, "all-MiniLM-L6-v2", user⟩)
  else commitDb

/-- Step D, title resolution: keep the edges whose two endpoints both resolve
to a title. -/
def resolveTitles {V : Type} (eng : SearchEngine V) (d : EdgeDict) : List OutEdge :=
  d.filterMap (fun p =>
    match eng.titles p.1.1, eng.titles p.1.2 with
    | some ts, some tt => some ⟨ts, tt, p.2⟩
    | _, _ => none)

/-- `calculate_global_cross_edges`: empty new set short-circuits; id
normalization may raise; then probe, compute, persist (against the
commit-time table `db ++ interDb`) and resolve titles.  The result pairs the
returned edge list with the table contents after the call. -/
def calculate_global_cross_edges {V : Type} (eng : SearchEngine V)
    (db interDb : List CachedEdge) (new_node_ids existing_node_ids : List RawId)
    (threshold : ℚ) (max_edges_per_node : ℕ) (user_context : Option ℕ) :
    Except Unit (List OutEdge × List CachedEdge) :=
  if new_node_ids = [] then .ok ([], db ++ interDb)
  else
    match mapToInt new_node_ids, mapToInt existing_node_ids with
    | some newL, some exL =>
      let newIds := dedupList newL
      let exIds := dedupList (exL.filter (fun n => ¬ n ∈ newIds))
      let st := connectEdges eng db newIds exIds threshold max_edges_per_node
      .ok (resolveTitles eng st.1, persistEdges db (db ++ interDb) st.2 user_context)
    | _, _ => .error ()


/-! ### Ranking lemmas -/

lemma fuseScore_def (a b c d : ℝ) : fuseScore a b c d =
    if max c EPSILON < 0.2 ∧ max b EPSILON < 0.1 then
      max a EPSILON ^ WEIGHT_SEMANTIC * max b EPSILON ^ WEIGHT_PAGERANK *
        max c EPSILON ^ WEIGHT_PAGEVIEWS * max d EPSILON ^ WEIGHT_TITLE_MATCH * 0.5
    else
      max a EPSILON ^ WEIGHT_SEMANTIC * max b EPSILON ^ WEIGHT_PAGERANK *
        max c EPSILON ^ WEIGHT_PAGEVIEWS * max d EPSILON ^ WEIGHT_TITLE_MATCH := rfl

lemma max_eps_nonneg (x : ℝ) : 0 ≤ max x EPSILON :=
  le_trans (by norm_num [EPSILON]) (le_max_right x EPSILON)

lemma max_eps_le_one {x : ℝ} (hx : x ≤ 1) : max x EPSILON ≤ 1 :=
  max_le hx (by norm_num [EPSILON])

lemma fuseBase_nonneg (a b c d : ℝ) :
    0 ≤ max a EPSILON ^ WEIGHT_SEMANTIC * max b EPSILON ^ WEIGHT_PAGERANK *
      max c EPSILON ^ WEIGHT_PAGEVIEWS * max d EPSILON ^ WEIGHT_TITLE_MATCH :=
  mul_nonneg (mul_nonneg (mul_nonneg
    (Real.rpow_nonneg (max_eps_nonneg a) _)
    (Real.rpow_nonneg (max_eps_nonneg b) _))
    (Real.rpow_nonneg (max_eps_nonneg c) _))
    (Real.rpow_nonneg (max_eps_nonneg d) _)

lemma fuseScore_nonneg (a b c d : ℝ) : 0 ≤ fuseScore a b c d := by
  rw [fuseScore_def]
  split_ifs
  · exact mul_nonneg (fuseBase_nonneg a b c d) (by norm_num)
  · exact fuseBase_nonneg a b c d

lemma fuseBase_le_one {a b c d : ℝ} (ha : a ≤ 1) (hb : b ≤ 1) (hc : c ≤ 1) (hd : d ≤ 1) :
    max a EPSILON ^ WEIGHT_SEMANTIC * max b EPSILON ^ WEIGHT_PAGERANK *
      max c EPSILON ^ WEIGHT_PAGEVIEWS * max d EPSILON ^ WEIGHT_TITLE_MATCH ≤ 1 := by
  have f1 : max a EPSILON ^ WEIGHT_SEMANTIC ≤ 1 :=
    Real.rpow_le_one (max_eps_nonneg a) (max_eps_le_one ha) (by norm_num [WEIGHT_SEMANTIC])
  have f2 : max b EPSILON ^ WEIGHT_PAGERANK ≤ 1 :=
    Real.rpow_le_one (max_eps_nonneg b) (max_eps_le_one hb) (by norm_num [WEIGHT_PAGERANK])
  have f3 : max c EPSILON ^ WEIGHT_PAGEVIEWS ≤ 1 :=
    Real.rpow_le_one (max_eps_nonneg c) (max_eps_le_one hc) (by norm_num [WEIGHT_PAGEVIEWS])
  have f4 : max d EPSILON ^ WEIGHT_TITLE_MATCH ≤ 1 :=
    Real.rpow_le_one (max_eps_nonneg d) (max_eps_le_one hd) (by norm_num [WEIGHT_TITLE_MATCH])
  have n2 := Real.rpow_nonneg (max_eps_nonneg b) WEIGHT_PAGERANK
  have n3 := Real.rpow_nonneg (max_eps_nonneg c) WEIGHT_PAGEVIEWS
  have n4 := Real.rpow_nonneg (max_eps_nonneg d) WEIGHT_TITLE_MATCH
  exact mul_le_one₀ (mul_le_one₀ (mul_le_one₀ f1 n2 f2) n3 f3) n4 f4

lemma fuseScore_le_one {a b c d : ℝ} (ha : a ≤ 1) (hb : b ≤ 1) (hc : c ≤ 1) (hd : d ≤ 1) :
    fuseScore a b c d ≤ 1 := by
  rw [fuseScore_def]
  split_ifs
  · calc max a EPSILON ^ WEIGHT_SEMANTIC * max b EPSILON ^ WEIGHT_PAGERANK *
        max c EPSILON ^ WEIGHT_PAGEVIEWS * max d EPSILON ^ WEIGHT_TITLE_MATCH * 0.5 ≤ 1 * 0.5 :=
          mul_le_mul_of_nonneg_right (fuseBase_le_one ha hb hc hd) (by norm_num)
    _ ≤ 1 := by norm_num
  · exact fuseBase_le_one ha hb hc hd

lemma mul4_le_mul4 {a1 a2 b1 b2 c1 c2 d1 d2 : ℝ} (ha : a1 ≤ a2) (hb : b1 ≤ b2)
    (hc : c1 ≤ c2) (hd : d1 ≤ d2) (ha0 : 0 ≤ a1) (hb0 : 0 ≤ b1) (hc0 : 0 ≤ c1)
    (hd0 : 0 ≤ d1) : a1 * b1 * c1 * d1 ≤ a2 * b2 * c2 * d2 := by
  have h1 : a1 * b1 ≤ a2 * b2 := mul_le_mul ha hb hb0 (ha0.trans ha)
  have h2 : a1 * b1 * c1 ≤ a2 * b2 * c2 :=
    mul_le_mul h1 hc hc0 (mul_nonneg (ha0.trans ha) (hb0.trans hb))
  exact mul_le_mul h2 hd hd0
    (mul_nonneg (mul_nonneg (ha0.trans ha) (hb0.trans hb)) (hc0.trans hc))

lemma fuseBase_mono_sem {x y b c d : ℝ} (h : x ≤ y) :
    max x EPSILON ^ WEIGHT_SEMANTIC * max b EPSILON ^ WEIGHT_PAGERANK *
      max c EPSILON ^ WEIGHT_PAGEVIEWS * max d EPSILON ^ WEIGHT_TITLE_MATCH ≤
    max y EPSILON ^ WEIGHT_SEMANTIC * max b EPSILON ^ WEIGHT_PAGERANK *
      max c EPSILON ^ WEIGHT_PAGEVIEWS * max d EPSILON ^ WEIGHT_TITLE_MATCH :=
  mul4_le_mul4
    (Real.rpow_le_rpow (max_eps_nonneg x) (max_le_max h le_rfl) (by norm_num [WEIGHT_SEMANTIC]))
    le_rfl le_rfl le_rfl
    (Real.rpow_nonneg (max_eps_nonneg x) _) (Real.rpow_nonneg (max_eps_nonneg b) _)
    (Real.rpow_nonneg (max_eps_nonneg c) _) (Real.rpow_nonneg (max_eps_nonneg d) _)

lemma fuseBase_mono_pr {s x y c d : ℝ} (h : x ≤ y) :
    max s EPSILON ^ WEIGHT_SEMANTIC * max x EPSILON ^ WEIGHT_PAGERANK *
      max c EPSILON ^ WEIGHT_PAGEVIEWS * max d EPSILON ^ WEIGHT_TITLE_MATCH ≤
    max s EPSILON ^ WEIGHT_SEMANTIC * max y EPSILON ^ WEIGHT_PAGERANK *
      max c EPSILON ^ WEIGHT_PAGEVIEWS * max d EPSILON ^ WEIGHT_TITLE_MATCH :=
  mul4_le_mul4 le_rfl
    (Real.rpow_le_rpow (max_eps_nonneg x) (max_le_max h le_rfl) (by norm_num [WEIGHT_PAGERANK]))
    le_rfl le_rfl
    (Real.rpow_nonneg (max_eps_nonneg s) _) (Real.rpow_nonneg (max_eps_nonneg x) _)
    (Real.rpow_nonneg (max_eps_nonneg c) _) (Real.rpow_nonneg (max_eps_nonneg d) _)

lemma fuseBase_mono_pv {s b x y d : ℝ} (h : x ≤ y) :
    max s EPSILON ^ WEIGHT_SEMANTIC * max b EPSILON ^ WEIGHT_PAGERANK *
      max x EPSILON ^ WEIGHT_PAGEVIEWS * max d EPSILON ^ WEIGHT_TITLE_MATCH ≤
    max s EPSILON ^ WEIGHT_SEMANTIC * max b EPSILON ^ WEIGHT_PAGERANK *
      max y EPSILON ^ WEIGHT_PAGEVIEWS * max d EPSILON ^ WEIGHT_TITLE_MATCH :=
  mul4_le_mul4 le_rfl le_rfl
    (Real.rpow_le_rpow (max_eps_nonneg x) (max_le_max h le_rfl) (by norm_num [WEIGHT_PAGEVIEWS]))
    le_rfl
    (Real.rpow_nonneg (max_eps_nonneg s) _) (Real.rpow_nonneg (max_eps_nonneg b) _)
    (Real.rpow_nonneg (max_eps_nonneg x) _) (Real.rpow_nonneg (max_eps_nonneg d) _)

lemma fuseBase_mono_title {s b c x y : ℝ} (h : x ≤ y) :
    max s EPSILON ^ WEIGHT_SEMANTIC * max b EPSILON ^ WEIGHT_PAGERANK *
      max c EPSILON ^ WEIGHT_PAGEVIEWS * max x EPSILON ^ WEIGHT_TITLE_MATCH ≤
    max s EPSILON ^ WEIGHT_SEMANTIC * max b EPSILON ^ WEIGHT_PAGERANK *
      max c EPSILON ^ WEIGHT_PAGEVIEWS * max y EPSILON ^ WEIGHT_TITLE_MATCH :=
  mul4_le_mul4 le_rfl le_rfl le_rfl
    (Real.rpow_le_rpow (max_eps_nonneg x) (max_le_max h le_rfl) (by norm_num [WEIGHT_TITLE_MATCH]))
    (Real.rpow_nonneg (max_eps_nonneg s) _) (Real.rpow_nonneg (max_eps_nonneg b) _)
    (Real.rpow_nonneg (max_eps_nonneg c) _) (Real.rpow_nonneg (max_eps_nonneg x) _)

lemma fuseScore_mono_sem {x y p v t : ℝ} (h : x ≤ y) :
    fuseScore x p v t ≤ fuseScore y p v t := by
  rw [fuseScore_def, fuseScore_def]
  split_ifs
  · exact mul_le_mul_of_nonneg_right (fuseBase_mono_sem h) (by norm_num)
  · exact fuseBase_mono_sem h

lemma fuseScore_mono_title {s p v x y : ℝ} (h : x ≤ y) :
    fuseScore s p v x ≤ fuseScore s p v y := by
  rw [fuseScore_def, fuseScore_def]
  split_ifs
  · exact mul_le_mul_of_nonneg_right (fuseBase_mono_title h) (by norm_num)
  · exact fuseBase_mono_title h

lemma fuseScore_mono_pv {s p t x y : ℝ} (h : x ≤ y) :
    fuseScore s p x t ≤ fuseScore s p y t := by
  rw [fuseScore_def, fuseScore_def]
  by_cases h2 : max y EPSILON < 0.2 ∧ max p EPSILON < 0.1
  · have h1 : max x EPSILON < 0.2 ∧ max p EPSILON < 0.1 :=
      ⟨lt_of_le_of_lt (max_le_max h le_rfl) h2.1, h2.2⟩
    rw [if_pos h1, if_pos h2]
    exact mul_le_mul_of_nonneg_right (fuseBase_mono_pv h) (by norm_num)
  · rw [if_neg h2]
    by_cases h1 : max x EPSILON < 0.2 ∧ max p EPSILON < 0.1
    · rw [if_pos h1]
      calc max s EPSILON ^ WEIGHT_SEMANTIC * max p EPSILON ^ WEIGHT_PAGERANK *
            max x EPSILON ^ WEIGHT_PAGEVIEWS * max t EPSILON ^ WEIGHT_TITLE_MATCH * 0.5 ≤
          max s EPSILON ^ WEIGHT_SEMANTIC * max p EPSILON ^ WEIGHT_PAGERANK *
            max x EPSILON ^ WEIGHT_PAGEVIEWS * max t EPSILON ^ WEIGHT_TITLE_MATCH :=
            mul_le_of_le_one_right (fuseBase_nonneg s p x t) (by norm_num)
        _ ≤ _ := fuseBase_mono_pv h
    · rw [if_neg h1]
      exact fuseBase_mono_pv h

lemma fuseScore_mono_pr {s v t x y : ℝ} (h : x ≤ y) :
    fuseScore s x v t ≤ fuseScore s y v t := by
  rw [fuseScore_def, fuseScore_def]
  by_cases h2 : max v EPSILON < 0.2 ∧ max y EPSILON < 0.1
  · have h1 : max v EPSILON < 0.2 ∧ max x EPSILON < 0.1 :=
      ⟨h2.1, lt_of_le_of_lt (max_le_max h le_rfl) h2.2⟩
    rw [if_pos h1, if_pos h2]
    exact mul_le_mul_of_nonneg_right (fuseBase_mono_pr h) (by norm_num)
  · rw [if_neg h2]
    by_cases h1 : max v EPSILON < 0.2 ∧ max x EPSILON < 0.1
    · rw [if_pos h1]
      calc max s EPSILON ^ WEIGHT_SEMANTIC * max x EPSILON ^ WEIGHT_PAGERANK *
            max v EPSILON ^ WEIGHT_PAGEVIEWS * max t EPSILON ^ WEIGHT_TITLE_MATCH * 0.5 ≤
          max s EPSILON ^ WEIGHT_SEMANTIC * max x EPSILON ^ WEIGHT_PAGERANK *
            max v EPSILON ^ WEIGHT_PAGEVIEWS * max t EPSILON ^ WEIGHT_TITLE_MATCH :=
            mul_le_of_le_one_right (fuseBase_nonneg s x v t) (by norm_num)
        _ ≤ _ := fuseBase_mono_pr h
    · rw [if_neg h1]
      exact fuseBase_mono_pr h


lemma normalize_pagerank_nonneg (p : Option ℚ) : 0 ≤ normalize_pagerank p := by
  cases p with
  | none => simp [normalize_pagerank]
  | some q =>
    simp only [normalize_pagerank]
    split_ifs with h
    · norm_num
    · exact (div_pos (not_le.mp h) (by norm_num)).le

lemma normalize_pagerank_le_one {p : Option ℚ} (hb : ∀ q, p = some q → q ≤ 100) :
    normalize_pagerank p ≤ 1 := by
  cases p with
  | none => simp [normalize_pagerank]
  | some q =>
    simp only [normalize_pagerank]
    split_ifs with h
    · norm_num
    · rw [div_le_one (by norm_num)]
      exact hb q rfl

lemma normalize_pageviews_nonneg (pv : Option ℕ) : 0 ≤ normalize_pageviews pv := by
  cases pv with
  | none => simp [normalize_pageviews]
  | some n =>
    simp only [normalize_pageviews]
    split_ifs
    · norm_num
    · norm_num
    · exact le_min (by norm_num) (le_max_left 0 _)

lemma normalize_pageviews_le_one (pv : Option ℕ) : normalize_pageviews pv ≤ 1 := by
  cases pv with
  | none => simp [normalize_pageviews]
  | some n =>
    simp only [normalize_pageviews]
    split_ifs
    · norm_num
    · norm_num
    · exact min_le_left _ _

lemma clamp_nonneg (a : ℚ) : 0 ≤ pyMin 1 (pyMax 0 a) := by
  unfold pyMin pyMax
  split_ifs <;> linarith

lemma clamp_le_one (a : ℚ) : pyMin 1 (pyMax 0 a) ≤ 1 := by
  unfold pyMin pyMax
  split_ifs <;> linarith

lemma tms_nonneg (title query : String) : 0 ≤ calculate_title_match_score title query := by
  unfold calculate_title_match_score
  split_ifs <;> first | exact clamp_nonneg _ | norm_num

lemma tms_le_one (title query : String) : calculate_title_match_score title query ≤ 1 := by
  unfold calculate_title_match_score
  split_ifs <;> first | exact clamp_le_one _ | norm_num

/-- `logb 10` of a power of ten. -/
lemma logb_ten_pow (k : ℕ) : Real.logb 10 ((10 : ℝ) ^ (k : ℕ)) = k := by
  rw [← Real.rpow_natCast (10 : ℝ) k]
  exact Real.logb_rpow (by norm_num) (by norm_num)

lemma pv_at_100 : normalize_pageviews (some 100) = 0 := by
  simp only [normalize_pageviews]
  rw [if_neg (by norm_num), if_neg (by norm_num)]
  have h : Real.logb 10 ((100 : ℕ) : ℝ) = 2 := by
    rw [show (((100 : ℕ)) : ℝ) = (10 : ℝ) ^ (2 : ℕ) by norm_num]
    simpa using logb_ten_pow 2
  rw [h]
  norm_num

lemma pv_below_100 (n : ℕ) (h1 : 1 ≤ n) (h2 : n < 100) :
    normalize_pageviews (some n) = 0.1 := by
  simp only [normalize_pageviews]
  rw [if_neg (by omega), if_pos h2]

lemma pv_at_ceiling : normalize_pageviews (some 10000000) = 1 := by
  simp only [normalize_pageviews]
  rw [if_neg (by norm_num), if_neg (by norm_num)]
  have h : Real.logb 10 ((10000000 : ℕ) : ℝ) = 7 := by
    rw [show (((10000000 : ℕ)) : ℝ) = (10 : ℝ) ^ (7 : ℕ) by norm_num]
    simpa using logb_ten_pow 7
  rw [h]
  norm_num

lemma pv_log_linear (n : ℕ) (h1 : 100 ≤ n) (h2 : n ≤ 10000000) :
    normalize_pageviews (some n) = (Real.logb 10 (n : ℝ) - 2) / 5 := by
  simp only [normalize_pageviews]
  rw [if_neg (by omega), if_neg (by omega)]
  have hlo : (2 : ℝ) ≤ Real.logb 10 (n : ℝ) := by
    have h := Real.logb_le_logb_of_le (show (1 : ℝ) < 10 by norm_num)
      (show (0 : ℝ) < 100 by norm_num) (show (100 : ℝ) ≤ (n : ℝ) by exact_mod_cast h1)
    have h100 : Real.logb 10 (100 : ℝ) = 2 := by
      rw [show ((100 : ℝ)) = (10 : ℝ) ^ (2 : ℕ) by norm_num]
      simpa using logb_ten_pow 2
    linarith [h, h100.symm.le, h100.le]
  have hhi : Real.logb 10 (n : ℝ) ≤ 7 := by
    have h := Real.logb_le_logb_of_le (show (1 : ℝ) < 10 by norm_num)
      (show (0 : ℝ) < (n : ℝ) by exact_mod_cast Nat.lt_of_lt_of_le (by norm_num) h1)
      (show ((n : ℝ)) ≤ (10000000 : ℝ) by exact_mod_cast h2)
    have h7 : Real.logb 10 (10000000 : ℝ) = 7 := by
      rw [show ((10000000 : ℝ)) = (10 : ℝ) ^ (7 : ℕ) by norm_num]
      simpa using logb_ten_pow 7
    linarith [h, h7.le]
  rw [max_eq_right (by linarith), min_eq_right (by linarith)]

/-- C5 (amended): for every candidate with semantic similarity in `[0, 1]` and
pagerank, when present, at most 100, the fused multi-signal score lies in
`[0, 1]`. -/
theorem multisignal_score_in_unit_interval (sem : ℝ) (pr : Option ℚ) (pv : Option ℕ)
    (title query : String) (hsem0 : 0 ≤ sem) (hsem1 : sem ≤ 1)
    (hpr : ∀ q, pr = some q → q ≤ 100) :
    0 ≤ calculate_multisignal_score sem pr pv title query ∧
      calculate_multisignal_score sem pr pv title query ≤ 1 := by
  unfold calculate_multisignal_score
  refine ⟨fuseScore_nonneg _ _ _ _, ?_⟩
  apply fuseScore_le_one hsem1
  · exact_mod_cast normalize_pagerank_le_one hpr
  · exact normalize_pageviews_le_one pv
  · exact_mod_cast tms_le_one title query

/-- C5 witness at a concrete retained candidate. -/
theorem multisignal_score_in_unit_interval_witness :
    0 ≤ calculate_multisignal_score (1 / 2) (some 50) (some 200) "alpha" "beta" ∧
      calculate_multisignal_score (1 / 2) (some 50) (some 200) "alpha" "beta" ≤ 1 :=
  multisignal_score_in_unit_interval (1 / 2) (some 50) (some 200) "alpha" "beta"
    (by norm_num) (by norm_num)
    (by intro q hq; injection hq with h; rw [← h]; norm_num)

/-- C5 counterexample: a retained (non-meta) candidate whose pagerank exceeds
100 makes the fused score exceed 1, because `normalize_pagerank` has no upper
clamp. -/
theorem multisignal_score_exceeds_one :
    is_meta_page "a" = false ∧
    1 < calculate_multisignal_score 1 (some 1000000) (some 50) "a" "a" := by
  refine ⟨by decide, ?_⟩
  have hpr : normalize_pagerank (some 1000000) = 10000 := by
    simp only [normalize_pagerank]
    norm_num
  have hpv : normalize_pageviews (some 50) = 0.1 := pv_below_100 50 (by norm_num) (by norm_num)
  have htm : calculate_title_match_score "a" "a" = 1 := by decide
  unfold calculate_multisignal_score
  rw [hpr, hpv, htm]
  rw [show (((10000 : ℚ)) : ℝ) = 10000 by norm_num, show (((1 : ℚ)) : ℝ) = 1 by norm_num]
  rw [fuseScore_def]
  have m1 : max (1 : ℝ) EPSILON = 1 := max_eq_left (by norm_num [EPSILON])
  have m2 : max (10000 : ℝ) EPSILON = 10000 := max_eq_left (by norm_num [EPSILON])
  have m3 : max (0.1 : ℝ) EPSILON = 0.1 := max_eq_left (by norm_num [EPSILON])
  rw [m1, m2, m3]
  rw [if_neg (by intro h; exact absurd h.2 (by norm_num))]
  rw [Real.one_rpow, Real.one_rpow, one_mul, mul_one]
  have hP : (10000 : ℝ) ^ WEIGHT_PAGERANK = 100 := by
    have h1 : ((100 : ℝ) ^ ((2 : ℕ) : ℝ)) = 10000 := by
      rw [Real.rpow_natCast]
      norm_num
    rw [← h1, ← Real.rpow_mul (by norm_num : (0 : ℝ) ≤ 100),
      show ((2 : ℕ) : ℝ) * WEIGHT_PAGERANK = 1 by push_cast [WEIGHT_PAGERANK]; norm_num,
      Real.rpow_one]
  have hV : (0.1 : ℝ) ≤ (0.1 : ℝ) ^ WEIGHT_PAGEVIEWS := by
    calc (0.1 : ℝ) = 0.1 ^ (1 : ℝ) := (Real.rpow_one _).symm
    _ ≤ 0.1 ^ WEIGHT_PAGEVIEWS :=
      Real.rpow_le_rpow_of_exponent_ge (by norm_num) (by norm_num)
        (by norm_num [WEIGHT_PAGEVIEWS])
  rw [hP]
  nlinarith [hV]

/-- C6 (amended): `normalize_pageviews` maps missing or zero counts to 0,
counts from 1 to 99 to the constant 0.1, the count 100 to 0 (not 0.1: the
floor branch is a strict `< 100` comparison), the ceiling 10,000,000 to 1,
and is linear in log10 of the count from 100 to the ceiling. -/
theorem normalize_pageviews_spec :
    normalize_pageviews none = 0 ∧
    normalize_pageviews (some 0) = 0 ∧
    (∀ n : ℕ, 1 ≤ n → n < 100 → normalize_pageviews (some n) = 0.1) ∧
    normalize_pageviews (some 100) = 0 ∧
    normalize_pageviews (some 10000000) = 1 ∧
    (∀ n : ℕ, 100 ≤ n → n ≤ 10000000 →
      normalize_pageviews (some n) = (Real.logb 10 (n : ℝ) - 2) / 5) := by
  refine ⟨rfl, ?_, pv_below_100, pv_at_100, pv_at_ceiling, pv_log_linear⟩
  simp only [normalize_pageviews]
  rw [if_pos (by norm_num)]

/-- C6 witness at a concrete count below the floor. -/
theorem normalize_pageviews_spec_witness : normalize_pageviews (some 50) = 0.1 :=
  normalize_pageviews_spec.2.2.1 50 (by norm_num) (by norm_num)

/-- C6 counterexample: at exactly 100 views the code returns 0, not the 0.1
the claim states for counts up to and including the floor. -/
theorem normalize_pageviews_at_floor_ne :
    normalize_pageviews (some 100) = 0 ∧ normalize_pageviews (some 100) ≠ 0.1 := by
  refine ⟨pv_at_100, ?_⟩
  rw [pv_at_100]
  norm_num

/-- C7: the fused score is non-decreasing in each normalized signal (the
semantic, pagerank, pageview and title signals fed to the fusion step of
`calculate_multisignal_score`), the other three held fixed, including across
the obscurity-penalty boundaries. -/
theorem fused_score_monotone (x y s p v t : ℝ) (hxy : x ≤ y) :
    (∀ (sem : ℝ) (pr : Option ℚ) (pv : Option ℕ) (title query : String),
      calculate_multisignal_score sem pr pv title query =
        fuseScore sem ((normalize_pagerank pr : ℚ) : ℝ) (normalize_pageviews pv)
          ((calculate_title_match_score title query : ℚ) : ℝ)) ∧
    fuseScore x p v t ≤ fuseScore y p v t ∧
    fuseScore s x v t ≤ fuseScore s y v t ∧
    fuseScore s p x t ≤ fuseScore s p y t ∧
    fuseScore s p v x ≤ fuseScore s p v y :=
  ⟨fun _ _ _ _ _ => rfl, fuseScore_mono_sem hxy, fuseScore_mono_pr hxy,
    fuseScore_mono_pv hxy, fuseScore_mono_title hxy⟩

/-- C7 witness across the pageview obscurity boundary at 0.2. -/
theorem fused_score_monotone_witness :
    fuseScore (0.1 : ℝ) 0.05 0.19 0.5 ≤ fuseScore 0.3 0.05 0.19 0.5 ∧
    fuseScore (0.5 : ℝ) 0.1 0.19 0.5 ≤ fuseScore 0.5 0.3 0.19 0.5 ∧
    fuseScore (0.5 : ℝ) 0.05 0.1 0.5 ≤ fuseScore 0.5 0.05 0.3 0.5 ∧
    fuseScore (0.5 : ℝ) 0.05 0.19 0.1 ≤ fuseScore 0.5 0.05 0.19 0.3 := by
  have h1 := (fused_score_monotone 0.1 0.3 0.5 0.05 0.19 0.5 (by norm_num)).2.1
  have h2 := (fused_score_monotone 0.1 0.3 0.5 0.1 0.19 0.5 (by norm_num)).2.2.1
  have h3 := (fused_score_monotone 0.1 0.3 0.5 0.05 0.19 0.5 (by norm_num)).2.2.2.1
  have h4 := (fused_score_monotone 0.1 0.3 0.5 0.05 0.19 0.5 (by norm_num)).2.2.2.2
  exact ⟨h1, h2, h3, h4⟩


/-! ### Connectivity engine lemmas -/

lemma sortPair_lt {a b : ℤ} (h : a ≠ b) : (sortPair a b).1 < (sortPair a b).2 := by
  unfold sortPair
  split_ifs with hle
  · exact lt_of_le_of_ne hle h
  · exact not_le.mp hle

lemma sortPair_cases (a b : ℤ) : sortPair a b = (a, b) ∨ sortPair a b = (b, a) := by
  unfold sortPair
  split_ifs
  · exact Or.inl rfl
  · exact Or.inr rfl

lemma sortPair_of_lt {a b : ℤ} (h : a < b) : sortPair a b = (a, b) := by
  unfold sortPair
  rw [if_pos h.le]

lemma mem_insertDesc {x y : ℤ × ℚ} {l : List (ℤ × ℚ)} :
    x ∈ insertDesc y l ↔ x = y ∨ x ∈ l := by
  induction l with
  | nil => simp [insertDesc]
  | cons z zs ih =>
    unfold insertDesc
    split_ifs
    · simp [List.mem_cons]
    · simp only [List.mem_cons, ih]
      tauto

lemma mem_sortDesc {x : ℤ × ℚ} {l : List (ℤ × ℚ)} : x ∈ sortDesc l ↔ x ∈ l := by
  induction l with
  | nil => simp [sortDesc]
  | cons z zs ih => simp [sortDesc, mem_insertDesc, ih]

lemma hasKey_iff {d : EdgeDict} {k : ℤ × ℤ} : hasKey d k = true ↔ ∃ p ∈ d, p.1 = k := by
  simp [hasKey, List.any_eq_true]

lemma hasKey_cons {p : (ℤ × ℤ) × ℚ} {d : EdgeDict} {k : ℤ × ℤ} :
    hasKey (p :: d) k = (decide (p.1 = k) || hasKey d k) := rfl

lemma mem_dictSet {d : EdgeDict} {k : ℤ × ℤ} {v : ℚ} {q : (ℤ × ℤ) × ℚ}
    (hq : q ∈ dictSet d k v) : q = (k, v) ∨ q ∈ d := by
  induction d with
  | nil => simpa [dictSet] using hq
  | cons p rest ih =>
    unfold dictSet at hq
    split_ifs at hq with h
    · rcases List.mem_cons.mp hq with h1 | h1
      · exact Or.inl h1
      · exact Or.inr (List.mem_cons_of_mem p h1)
    · rcases List.mem_cons.mp hq with h1 | h1
      · exact Or.inr (h1 ▸ List.mem_cons_self p rest)
      · rcases ih h1 with h2 | h2
        · exact Or.inl h2
        · exact Or.inr (List.mem_cons_of_mem p h2)

lemma dictSet_of_not_hasKey {d : EdgeDict} {k : ℤ × ℤ} {v : ℚ}
    (h : hasKey d k = false) : dictSet d k v = d ++ [(k, v)] := by
  induction d with
  | nil => rfl
  | cons p rest ih =>
    rw [hasKey_cons, Bool.or_eq_false_iff] at h
    unfold dictSet
    rw [if_neg (by simpa using h.1), ih h.2]
    rfl

lemma keys_dictSet_of_hasKey {d : EdgeDict} {k : ℤ × ℤ} {v : ℚ}
    (h : hasKey d k = true) : (dictSet d k v).map Prod.fst = d.map Prod.fst := by
  induction d with
  | nil => simp [hasKey] at h
  | cons p rest ih =>
    rw [hasKey_cons, Bool.or_eq_true] at h
    unfold dictSet
    split_ifs with hk
    · simp [hk]
    · rcases h with h | h
      · exact absurd (of_decide_eq_true h) hk
      · simp [ih h]

lemma mem_keys_dictSet {d : EdgeDict} {k k' : ℤ × ℤ} {v : ℚ}
    (h : k' ∈ d.map Prod.fst) : k' ∈ (dictSet d k v).map Prod.fst := by
  induction d with
  | nil => simp at h
  | cons p rest ih =>
    unfold dictSet
    split_ifs with hk
    · simp only [List.map_cons] at h ⊢
      rcases List.mem_cons.mp h with h1 | h1
      · exact List.mem_cons.mpr (Or.inl (h1.trans hk))
      · exact List.mem_cons.mpr (Or.inr h1)
    · simp only [List.map_cons] at h ⊢
      rcases List.mem_cons.mp h with h1 | h1
      · exact List.mem_cons.mpr (Or.inl h1)
      · exact List.mem_cons.mpr (Or.inr (ih h1))

lemma dbHasKey_iff {db : List CachedEdge} {s t : ℤ} :
    dbHasKey db s t = true ↔ ∃ r ∈ db, r.source_id = s ∧ r.target_id = t := by
  simp [dbHasKey, List.any_eq_true]

lemma dbHasKey_false_iff {db : List CachedEdge} {s t : ℤ} :
    dbHasKey db s t = false ↔ ∀ r ∈ db, ¬(r.source_id = s ∧ r.target_id = t) := by
  rw [← Bool.not_eq_true, dbHasKey_iff]
  constructor
  · intro h r hr hand
    exact h ⟨r, hr, hand⟩
  · rintro h ⟨r, hr, hand⟩
    exact h r hr hand


/-- The dict entries corresponding to an `edges_to_save` buffer. -/
def pairsOf (E : List EdgeData) : EdgeDict :=
  E.map (fun e => ((e.source_id, e.target_id), e.score))

lemma pairsOf_map_fst (E : List EdgeData) :
    (pairsOf E).map Prod.fst = E.map (fun e => (e.source_id, e.target_id)) := by
  simp [pairsOf, List.map_map]

lemma not_hasKey_iff {d : EdgeDict} {k : ℤ × ℤ} :
    hasKey d k = false ↔ k ∉ d.map Prod.fst := by
  rw [← Bool.not_eq_true, hasKey_iff]
  simp [List.mem_map]

lemma mem_insertResolved {l : List ℤ} {n x : ℤ} (hx : x ∈ insertResolved l n) :
    x ∈ l ∨ x = n := by
  unfold insertResolved at hx
  split_ifs at hx
  · exact Or.inl hx
  · rcases List.mem_append.mp hx with h | h
    · exact Or.inl h
    · exact Or.inr (List.mem_singleton.mp h)

lemma probeStep_entries {newIds exIds : List ℤ} {st : EdgeDict × List ℤ}
    {row : CachedEdge} {q : (ℤ × ℤ) × ℚ}
    (hq : q ∈ (probeStep newIds exIds st row).1) :
    q ∈ st.1 ∨ q = (sortPair row.source_id row.target_id, row.score) := by
  simp only [probeStep] at hq
  split_ifs at hq <;>
    first
    | exact Or.inl hq
    | (rcases mem_dictSet hq with h | h <;> first | exact Or.inr h | exact Or.inl h)

lemma probeStep_resolved {newIds exIds : List ℤ} {st : EdgeDict × List ℤ}
    {row : CachedEdge} {n : ℤ} (hn : n ∈ (probeStep newIds exIds st row).2) :
    n ∈ st.2 ∨ n ∈ newIds := by
  simp only [probeStep] at hn
  split_ifs at hn <;>
    first
    | exact Or.inl hn
    | (rcases mem_insertResolved hn with h | h <;>
        first | exact Or.inl h | (subst h; tauto))

lemma probe_fold_entries (newIds exIds : List ℤ) (db : List CachedEdge) :
    ∀ (st : EdgeDict × List ℤ), ∀ q ∈ (db.foldl (probeStep newIds exIds) st).1,
      q ∈ st.1 ∨ ∃ r ∈ db, q = (sortPair r.source_id r.target_id, r.score) := by
  induction db with
  | nil =>
    intro st q hq
    exact Or.inl hq
  | cons r rest ih =>
    intro st q hq
    simp only [List.foldl_cons] at hq
    rcases ih _ q hq with h | ⟨r', hr', h'⟩
    · rcases probeStep_entries h with h1 | h1
      · exact Or.inl h1
      · exact Or.inr ⟨r, List.mem_cons_self r rest, h1⟩
    · exact Or.inr ⟨r', List.mem_cons_of_mem r hr', h'⟩

/-- Every entry of the cache probe comes from a stored row, key and score. -/
lemma probe_entries {newIds exIds : List ℤ} {db : List CachedEdge} :
    ∀ q ∈ (probePhase db newIds exIds).1,
      ∃ r ∈ db, q = (sortPair r.source_id r.target_id, r.score) := by
  intro q hq
  rcases probe_fold_entries newIds exIds db ([], []) q hq with h | h
  · simp at h
  · exact h

lemma probe_fold_resolved (newIds exIds : List ℤ) (db : List CachedEdge) :
    ∀ (st : EdgeDict × List ℤ), ∀ n ∈ (db.foldl (probeStep newIds exIds) st).2,
      n ∈ st.2 ∨ n ∈ newIds := by
  induction db with
  | nil =>
    intro st n hn
    exact Or.inl hn
  | cons r rest ih =>
    intro st n hn
    simp only [List.foldl_cons] at hn
    rcases ih _ n hn with h | h
    · exact probeStep_resolved h
    · exact Or.inr h

/-- Resolved nodes of the probe are new ids. -/
lemma probe_resolved_sub {newIds exIds : List ℤ} {db : List CachedEdge} :
    ∀ n ∈ (probePhase db newIds exIds).2, n ∈ newIds := by
  intro n hn
  rcases probe_fold_resolved newIds exIds db ([], []) n hn with h | h
  · simp at h
  · exact h

lemma mem_keys_dictSet_self {d : EdgeDict} {k : ℤ × ℤ} {v : ℚ} :
    k ∈ (dictSet d k v).map Prod.fst := by
  induction d with
  | nil => simp [dictSet]
  | cons p rest ih =>
    unfold dictSet
    split_ifs with hk
    · simp
    · simp only [List.map_cons, List.mem_cons]
      exact Or.inr ih

lemma probeStep_keys_mono {newIds exIds : List ℤ} {st : EdgeDict × List ℤ}
    {row : CachedEdge} {k : ℤ × ℤ} (hk : k ∈ st.1.map Prod.fst) :
    k ∈ (probeStep newIds exIds st row).1.map Prod.fst := by
  simp only [probeStep]
  split_ifs <;> first | exact mem_keys_dictSet hk | exact hk

lemma probeStep_adds_key {newIds exIds : List ℤ} {st : EdgeDict × List ℤ}
    {row : CachedEdge}
    (hs : row.source_id ∈ newIds ∨ row.source_id ∈ exIds)
    (ht : row.target_id ∈ newIds ∨ row.target_id ∈ exIds)
    (hone : row.source_id ∈ newIds ∨ row.target_id ∈ newIds) :
    sortPair row.source_id row.target_id ∈ (probeStep newIds exIds st row).1.map Prod.fst := by
  simp only [probeStep]
  rw [if_pos hone]
  split_ifs <;> first | exact mem_keys_dictSet_self | tauto

lemma probe_fold_keys_persist (newIds exIds : List ℤ) (db : List CachedEdge) :
    ∀ (st : EdgeDict × List ℤ) (k : ℤ × ℤ), k ∈ st.1.map Prod.fst →
      k ∈ (db.foldl (probeStep newIds exIds) st).1.map Prod.fst := by
  induction db with
  | nil =>
    intro st k hk
    exact hk
  | cons r rest ih =>
    intro st k hk
    simp only [List.foldl_cons]
    exact ih _ k (probeStep_keys_mono hk)

lemma probe_fold_keeps {newIds exIds : List ℤ} {r : CachedEdge}
    (hs : r.source_id ∈ newIds ∨ r.source_id ∈ exIds)
    (ht : r.target_id ∈ newIds ∨ r.target_id ∈ exIds)
    (hone : r.source_id ∈ newIds ∨ r.target_id ∈ newIds) :
    ∀ (db : List CachedEdge) (st : EdgeDict × List ℤ), r ∈ db →
      sortPair r.source_id r.target_id ∈
        (db.foldl (probeStep newIds exIds) st).1.map Prod.fst := by
  intro db
  induction db with
  | nil =>
    intro st hr
    simp at hr
  | cons r' rest ih =>
    intro st hr
    simp only [List.foldl_cons]
    rcases List.mem_cons.mp hr with h | h
    · subst h
      exact probe_fold_keys_persist newIds exIds rest _ _ (probeStep_adds_key hs ht hone)
    · exact ih _ h

/-- A stored row whose endpoints both belong to the combined id pool, one of
them new, is kept by the probe. -/
lemma probe_keeps {newIds exIds : List ℤ} {db : List CachedEdge} {r : CachedEdge}
    (hr : r ∈ db)
    (hs : r.source_id ∈ newIds ∨ r.source_id ∈ exIds)
    (ht : r.target_id ∈ newIds ∨ r.target_id ∈ exIds)
    (hone : r.source_id ∈ newIds ∨ r.target_id ∈ newIds) :
    sortPair r.source_id r.target_id ∈ (probePhase db newIds exIds).1.map Prod.fst :=
  probe_fold_keeps hs ht hone db ([], []) hr


lemma rowLoop_spec (maxPer : ℕ) (A : ℤ) :
    ∀ (l : List (ℤ × ℚ)) (cnt : ℕ) (st : CState),
      ∃ E : List EdgeData,
        rowLoop maxPer A l cnt st = (st.1 ++ pairsOf E, st.2 ++ E) ∧
        (∀ e ∈ E, (e.source_id, e.target_id) ∉ st.1.map Prod.fst ∧
          ∃ t s, (t, s) ∈ l ∧ A ≠ t ∧ (e.source_id, e.target_id) = sortPair A t ∧
            e.score = s) ∧
        (E.map (fun e => (e.source_id, e.target_id))).Nodup := by
  intro l
  induction l with
  | nil =>
    intro cnt st
    refine ⟨[], by simp [rowLoop, pairsOf], by simp, by simp⟩
  | cons c rest ih =>
    intro cnt st
    obtain ⟨t, s⟩ := c
    by_cases hstop : maxPer ≤ cnt
    · refine ⟨[], by simp [rowLoop, hstop, pairsOf], by simp, by simp⟩
    · by_cases hself : A = t
      · obtain ⟨E, h1, h2, h3⟩ := ih cnt st
        refine ⟨E, ?_, ?_, h3⟩
        · rw [show rowLoop maxPer A ((t, s) :: rest) cnt st = rowLoop maxPer A rest cnt st
            from by simp [rowLoop, hstop, hself]]
          exact h1
        · intro e he
          obtain ⟨ha, t', s', hm, h4, h5, h6⟩ := h2 e he
          exact ⟨ha, t', s', List.mem_cons_of_mem _ hm, h4, h5, h6⟩
      · by_cases hdup : hasKey st.1 (sortPair A t) = true
        · obtain ⟨E, h1, h2, h3⟩ := ih (cnt + 1) st
          refine ⟨E, ?_, ?_, h3⟩
          · rw [show rowLoop maxPer A ((t, s) :: rest) cnt st =
                rowLoop maxPer A rest (cnt + 1) st
              from by simp [rowLoop, hstop, hself, hdup]]
            exact h1
          · intro e he
            obtain ⟨ha, t', s', hm, h4, h5, h6⟩ := h2 e he
            exact ⟨ha, t', s', List.mem_cons_of_mem _ hm, h4, h5, h6⟩
        · have hfresh : hasKey st.1 (sortPair A t) = false := by simpa using hdup
          have hstep : rowLoop maxPer A ((t, s) :: rest) cnt st =
              rowLoop maxPer A rest (cnt + 1)
                (st.1 ++ [(sortPair A t, s)],
                 st.2 ++ [⟨(sortPair A t).1, (sortPair A t).2, s⟩]) := by
            simp [rowLoop, hstop, hself, hdup, dictSet_of_not_hasKey hfresh]
          obtain ⟨E, h1, h2, h3⟩ := ih (cnt + 1)
            (st.1 ++ [(sortPair A t, s)],
             st.2 ++ [⟨(sortPair A t).1, (sortPair A t).2, s⟩])
          refine ⟨⟨(sortPair A t).1, (sortPair A t).2, s⟩ :: E, ?_, ?_, ?_⟩
          · rw [hstep, h1]
            simp [pairsOf]
          · intro e he
            rcases List.mem_cons.mp he with h | h
            · subst h
              refine ⟨?_, t, s, List.mem_cons_self _ _, hself, rfl, rfl⟩
              simpa using not_hasKey_iff.mp hfresh
            · obtain ⟨ha, t', s', hm, h4, h5, h6⟩ := h2 e h
              refine ⟨?_, t', s', List.mem_cons_of_mem _ hm, h4, h5, h6⟩
              intro hmem
              apply ha
              rw [List.map_append]
              exact List.mem_append_left _ hmem
          · rw [List.map_cons, List.nodup_cons]
            refine ⟨?_, h3⟩
            intro hmem
            rcases List.mem_map.mp hmem with ⟨e, heE, hkey⟩
            apply (h2 e heE).1
            rw [List.map_append]
            refine List.mem_append_right _ ?_
            rw [hkey]
            simp

lemma extractRow_spec (τ : ℚ) (maxPer : ℕ) (A : ℤ) (cands : List (ℤ × ℚ)) (st : CState) :
    ∃ E : List EdgeData,
      extractRow τ maxPer A cands st = (st.1 ++ pairsOf E, st.2 ++ E) ∧
      (∀ e ∈ E, (e.source_id, e.target_id) ∉ st.1.map Prod.fst ∧
        e.source_id < e.target_id ∧ τ < e.score ∧
        ∃ t, t ∈ cands.map Prod.fst ∧ A ≠ t ∧
          (e.source_id, e.target_id) = sortPair A t) ∧
      (E.map (fun e => (e.source_id, e.target_id))).Nodup := by
  obtain ⟨E, h1, h2, h3⟩ :=
    rowLoop_spec maxPer A (sortDesc (cands.filter (fun c => τ < c.2))) 0 st
  refine ⟨E, h1, ?_, h3⟩
  intro e he
  obtain ⟨ha, t, s, hm, hne, hkey, hs⟩ := h2 e he
  have hm' := List.mem_filter.mp (mem_sortDesc.mp hm)
  have hts : τ < s := by simpa using hm'.2
  refine ⟨ha, ?_, ?_, t, List.mem_map_of_mem Prod.fst hm'.1, hne, hkey⟩
  · have := sortPair_lt hne
    rw [← hkey] at this
    exact this
  · rw [hs]
    exact hts

lemma mem_get_vectors {V : Type} {eng : SearchEngine V} {ids : List ℤ} {p : ℤ × V}
    (hp : p ∈ get_vectors eng ids) : p.1 ∈ ids ∧ eng.reconstruct p.1 = some p.2 := by
  unfold get_vectors at hp
  rcases List.mem_filterMap.mp hp with ⟨i, hi, hmap⟩
  rcases Option.map_eq_some'.mp hmap with ⟨v, hv, heq⟩
  cases heq
  exact ⟨hi, hv⟩

lemma gv_fact {V : Type} {eng : SearchEngine V} {ids : List ℤ} {x : ℤ}
    (hx : x ∈ (get_vectors eng ids).map Prod.fst) :
    x ∈ ids ∧ ∃ v, eng.reconstruct x = some v := by
  rcases List.mem_map.mp hx with ⟨p, hp, he⟩
  have h := mem_get_vectors hp
  exact ⟨he ▸ h.1, ⟨p.2, he ▸ h.2⟩⟩

lemma extract_edges_spec {V : Type} (eng : SearchEngine V) (τ : ℚ) (maxPer : ℕ)
    (targets : List (ℤ × V)) :
    ∀ (sources : List (ℤ × V)) (st : CState),
      ∃ E : List EdgeData,
        extract_edges eng τ maxPer sources targets st = (st.1 ++ pairsOf E, st.2 ++ E) ∧
        (∀ e ∈ E, (e.source_id, e.target_id) ∉ st.1.map Prod.fst ∧
          e.source_id < e.target_id ∧ τ < e.score ∧
          ∃ A t, A ∈ sources.map Prod.fst ∧ t ∈ targets.map Prod.fst ∧ A ≠ t ∧
            (e.source_id, e.target_id) = sortPair A t) ∧
        (E.map (fun e => (e.source_id, e.target_id))).Nodup := by
  intro sources
  induction sources with
  | nil =>
    intro st
    refine ⟨[], by simp [extract_edges, pairsOf], by simp, by simp⟩
  | cons p rest ih =>
    intro st
    obtain ⟨A, vA⟩ := p
    have hfold : extract_edges eng τ maxPer ((A, vA) :: rest) targets st =
        extract_edges eng τ maxPer rest targets
          (extractRow τ maxPer A (targets.map (fun q => (q.1, eng.cos_sim vA q.2))) st) := rfl
    obtain ⟨E1, h11, h12, h13⟩ :=
      extractRow_spec τ maxPer A (targets.map (fun q => (q.1, eng.cos_sim vA q.2))) st
    obtain ⟨E2, h21, h22, h23⟩ :=
      ih (extractRow τ maxPer A (targets.map (fun q => (q.1, eng.cos_sim vA q.2))) st)
    have hfst : (extractRow τ maxPer A (targets.map (fun q => (q.1, eng.cos_sim vA q.2))) st).1 =
        st.1 ++ pairsOf E1 := congrArg Prod.fst h11
    have hsnd : (extractRow τ maxPer A (targets.map (fun q => (q.1, eng.cos_sim vA q.2))) st).2 =
        st.2 ++ E1 := congrArg Prod.snd h11
    refine ⟨E1 ++ E2, ?_, ?_, ?_⟩
    · rw [hfold, h21, hfst, hsnd]
      simp [pairsOf]
    · intro e he
      rcases List.mem_append.mp he with h | h
      · obtain ⟨ha, hlt, hsc, t, htm, hne, hkey⟩ := h12 e h
        have htm' : t ∈ targets.map Prod.fst := by
          simpa [List.map_map, Function.comp] using htm
        exact ⟨ha, hlt, hsc, A, t, by simp, htm', hne, hkey⟩
      · obtain ⟨ha, hlt, hsc, A', t, hAm, htm, hne, hkey⟩ := h22 e h
        rw [hfst] at ha
        refine ⟨?_, hlt, hsc, A', t, ?_, htm, hne, hkey⟩
        · intro hmem
          apply ha
          rw [List.map_append]
          exact List.mem_append_left _ hmem
        · simp only [List.map_cons, List.mem_cons]
          exact Or.inr hAm
    · rw [List.map_append]
      refine List.Nodup.append h13 h23 ?_
      intro k hk1 hk2
      rcases List.mem_map.mp hk2 with ⟨e2, he2, hkey2⟩
      apply (h22 e2 he2).1
      rw [hfst, List.map_append, pairsOf_map_fst]
      exact List.mem_append_right _ (hkey2 ▸ hk1)


lemma key_endpoints {e : EdgeData} {A t : ℤ}
    (hkey : (e.source_id, e.target_id) = sortPair A t) :
    (e.source_id = A ∧ e.target_id = t) ∨ (e.source_id = t ∧ e.target_id = A) := by
  rcases sortPair_cases A t with h | h <;> rw [h, Prod.mk.injEq] at hkey
  · exact Or.inl hkey
  · exact Or.inr hkey

lemma pass_endpoints {V : Type} {eng : SearchEngine V} {nIds eIds : List ℤ}
    {e : EdgeData} {srcsKeys tgtsKeys : List ℤ}
    (srcsMem : ∀ x ∈ srcsKeys, x ∈ nIds ∧ ∃ v, eng.reconstruct x = some v)
    (tgtsMem : ∀ x ∈ tgtsKeys, (x ∈ nIds ∨ x ∈ eIds) ∧ ∃ v, eng.reconstruct x = some v)
    (hx : ∃ A t, A ∈ srcsKeys ∧ t ∈ tgtsKeys ∧ A ≠ t ∧
      (e.source_id, e.target_id) = sortPair A t) :
    (e.source_id ∈ nIds ∨ e.source_id ∈ eIds) ∧
    (e.target_id ∈ nIds ∨ e.target_id ∈ eIds) ∧
    (e.source_id ∈ nIds ∨ e.target_id ∈ nIds) ∧
    (∃ v, eng.reconstruct e.source_id = some v) ∧
    (∃ v, eng.reconstruct e.target_id = some v) := by
  obtain ⟨A, t, hA, ht, hne, hkey⟩ := hx
  obtain ⟨hAn, hAv⟩ := srcsMem A hA
  obtain ⟨htn, htv⟩ := tgtsMem t ht
  rcases key_endpoints hkey with ⟨h1, h2⟩ | ⟨h1, h2⟩
  · rw [h1, h2]
    exact ⟨Or.inl hAn, htn, Or.inl hAn, hAv, htv⟩
  · rw [h1, h2]
    exact ⟨htn, Or.inl hAn, Or.inr hAn, htv, hAv⟩

lemma computePhase_spec {V : Type} (eng : SearchEngine V) (pr : EdgeDict × List ℤ)
    (toCompute exIds : List ℤ) (τ : ℚ) (m : ℕ) (nIds : List ℤ)
    (htc : ∀ x ∈ toCompute, x ∈ nIds) (hres : ∀ n ∈ pr.2, n ∈ nIds) :
    ∃ E : List EdgeData,
      computePhase eng pr toCompute exIds τ m = (pr.1 ++ pairsOf E, E) ∧
      (∀ e ∈ E, (e.source_id, e.target_id) ∉ pr.1.map Prod.fst ∧
        e.source_id < e.target_id ∧ τ < e.score ∧
        (e.source_id ∈ nIds ∨ e.source_id ∈ exIds) ∧
        (e.target_id ∈ nIds ∨ e.target_id ∈ exIds) ∧
        (e.source_id ∈ nIds ∨ e.target_id ∈ nIds) ∧
        (∃ v, eng.reconstruct e.source_id = some v) ∧
        (∃ v, eng.reconstruct e.target_id = some v)) ∧
      (E.map (fun e => (e.source_id, e.target_id))).Nodup := by
  have srcsMem : ∀ x ∈ (get_vectors eng toCompute).map Prod.fst,
      x ∈ nIds ∧ ∃ v, eng.reconstruct x = some v := by
    intro x hx
    obtain ⟨h1, h2⟩ := gv_fact hx
    exact ⟨htc x h1, h2⟩
  have tgts1Mem : ∀ x ∈ (get_vectors eng toCompute).map Prod.fst,
      (x ∈ nIds ∨ x ∈ exIds) ∧ ∃ v, eng.reconstruct x = some v := by
    intro x hx
    obtain ⟨h1, h2⟩ := srcsMem x hx
    exact ⟨Or.inl h1, h2⟩
  have tgts2Mem : ∀ x ∈ (get_vectors eng (exIds ++ pr.2)).map Prod.fst,
      (x ∈ nIds ∨ x ∈ exIds) ∧ ∃ v, eng.reconstruct x = some v := by
    intro x hx
    obtain ⟨h1, h2⟩ := gv_fact hx
    refine ⟨?_, h2⟩
    rcases List.mem_append.mp h1 with h | h
    · exact Or.inr h
    · exact Or.inl (hres x h)
  unfold computePhase
  split_ifs with h2 h1 h1
  · -- both passes
    obtain ⟨E1, h11, h12, h13⟩ := extract_edges_spec eng τ m (get_vectors eng toCompute)
      (get_vectors eng toCompute) (pr.1, [])
    rw [h11]
    obtain ⟨E2, h21, h22, h23⟩ := extract_edges_spec eng τ m
      (get_vectors eng (exIds ++ pr.2)) (get_vectors eng toCompute)
      (pr.1 ++ pairsOf E1, ([] : List EdgeData) ++ E1)
    rw [h21]
    refine ⟨E1 ++ E2, by simp [pairsOf], ?_, ?_⟩
    · intro e he
      rcases List.mem_append.mp he with h | h
      · obtain ⟨ha, hlt, hsc, hx⟩ := h12 e h
        have hep := pass_endpoints srcsMem tgts1Mem hx
        exact ⟨by simpa using ha, hlt, hsc, hep.1, hep.2.1, hep.2.2.1, hep.2.2.2.1,
          hep.2.2.2.2⟩
      · obtain ⟨ha, hlt, hsc, hx⟩ := h22 e h
        have hep := pass_endpoints srcsMem tgts2Mem hx
        refine ⟨?_, hlt, hsc, hep.1, hep.2.1, hep.2.2.1, hep.2.2.2.1, hep.2.2.2.2⟩
        intro hmem
        apply ha
        rw [List.map_append]
        exact List.mem_append_left _ hmem
    · rw [List.map_append]
      refine List.Nodup.append h13 h23 ?_
      intro k hk1 hk2
      rcases List.mem_map.mp hk2 with ⟨e2, he2, hkey2⟩
      apply (h22 e2 he2).1
      rw [List.map_append, pairsOf_map_fst]
      exact List.mem_append_right _ (hkey2 ▸ hk1)
  · -- only pass 2
    obtain ⟨E2, h21, h22, h23⟩ := extract_edges_spec eng τ m
      (get_vectors eng (exIds ++ pr.2)) (get_vectors eng toCompute) (pr.1, [])
    rw [h21]
    refine ⟨E2, by simp, ?_, h23⟩
    intro e he
    obtain ⟨ha, hlt, hsc, hx⟩ := h22 e he
    have hep := pass_endpoints srcsMem tgts2Mem hx
    exact ⟨by simpa using ha, hlt, hsc, hep.1, hep.2.1, hep.2.2.1, hep.2.2.2.1, hep.2.2.2.2⟩
  · -- only pass 1
    obtain ⟨E1, h11, h12, h13⟩ := extract_edges_spec eng τ m (get_vectors eng toCompute)
      (get_vectors eng toCompute) (pr.1, [])
    rw [h11]
    refine ⟨E1, by simp, ?_, h13⟩
    intro e he
    obtain ⟨ha, hlt, hsc, hx⟩ := h12 e he
    have hep := pass_endpoints srcsMem tgts1Mem hx
    exact ⟨by simpa using ha, hlt, hsc, hep.1, hep.2.1, hep.2.2.1, hep.2.2.2.1, hep.2.2.2.2⟩
  · -- neither pass
    exact ⟨[], by simp [pairsOf], by simp, by simp⟩


lemma connectEdges_spec {V : Type} (eng : SearchEngine V) (db : List CachedEdge)
    (nIds eIds : List ℤ) (τ : ℚ) (m : ℕ) :
    ∃ E : List EdgeData,
      connectEdges eng db nIds eIds τ m = ((probePhase db nIds eIds).1 ++ pairsOf E, E) ∧
      (∀ e ∈ E, (e.source_id, e.target_id) ∉ (probePhase db nIds eIds).1.map Prod.fst ∧
        e.source_id < e.target_id ∧ τ < e.score ∧
        (e.source_id ∈ nIds ∨ e.source_id ∈ eIds) ∧
        (e.target_id ∈ nIds ∨ e.target_id ∈ eIds) ∧
        (e.source_id ∈ nIds ∨ e.target_id ∈ nIds) ∧
        (∃ v, eng.reconstruct e.source_id = some v) ∧
        (∃ v, eng.reconstruct e.target_id = some v)) ∧
      (E.map (fun e => (e.source_id, e.target_id))).Nodup := by
  unfold connectEdges
  split_ifs with hcap
  · exact computePhase_spec eng (probePhase db nIds eIds)
      (nIds.filter (fun n => ¬ n ∈ (probePhase db nIds eIds).2)) eIds τ m nIds
      (fun x hx => (List.mem_filter.mp hx).1) probe_resolved_sub
  · exact ⟨[], by simp [pairsOf], by simp, by simp⟩

lemma persistEdges_result (checkDb commitDb : List CachedEdge) (toSave : List EdgeData)
    (user : Option ℕ) :
    persistEdges checkDb commitDb toSave user = commitDb ∨
    (persistEdges checkDb commitDb toSave user =
      commitDb ++ (toSave.filter (fun e => !dbHasKey checkDb e.source_id e.target_id)).map
        (fun e => ⟨e.source_id, e.target_id, e.score, "all-MiniLM-L6-v2", user⟩) ∧
      (((toSave.filter (fun e => !dbHasKey checkDb e.source_id e.target_id)).map
        (fun e => (e.source_id, e.target_id))).Nodup ∧
      ∀ e ∈ toSave.filter (fun e => !dbHasKey checkDb e.source_id e.target_id),
        dbHasKey commitDb e.source_id e.target_id = false)) := by
  unfold persistEdges
  split_ifs with h
  · exact Or.inr ⟨rfl, h.1, h.2⟩
  · exact Or.inl rfl

lemma persistEdges_of_conflict {checkDb commitDb : List CachedEdge}
    {toSave : List EdgeData} {user : Option ℕ}
    (hconf : ∃ e ∈ toSave, dbHasKey checkDb e.source_id e.target_id = false ∧
      dbHasKey commitDb e.source_id e.target_id = true) :
    persistEdges checkDb commitDb toSave user = commitDb := by
  unfold persistEdges
  rw [if_neg]
  rintro ⟨hnd, hall⟩
  obtain ⟨e, he, h1, h2⟩ := hconf
  have hmem : e ∈ toSave.filter (fun e => !dbHasKey checkDb e.source_id e.target_id) :=
    List.mem_filter.mpr ⟨he, by simp [h1]⟩
  have := hall e hmem
  simp [this] at h2

lemma persistEdges_of_commit {checkDb commitDb : List CachedEdge}
    {toSave : List EdgeData} {user : Option ℕ}
    (hnd : ((toSave.filter (fun e => !dbHasKey checkDb e.source_id e.target_id)).map
      (fun e => (e.source_id, e.target_id))).Nodup)
    (hall : ∀ e ∈ toSave.filter (fun e => !dbHasKey checkDb e.source_id e.target_id),
      dbHasKey commitDb e.source_id e.target_id = false) :
    persistEdges checkDb commitDb toSave user =
      commitDb ++ (toSave.filter (fun e => !dbHasKey checkDb e.source_id e.target_id)).map
        (fun e => ⟨e.source_id, e.target_id, e.score, "all-MiniLM-L6-v2", user⟩) := by
  unfold persistEdges
  rw [if_pos ⟨hnd, hall⟩]

lemma persistEdges_nil (checkDb commitDb : List CachedEdge) (user : Option ℕ) :
    persistEdges checkDb commitDb [] user = commitDb := by
  unfold persistEdges
  simp

lemma engine_ok {V : Type} (eng : SearchEngine V) (db interDb : List CachedEdge)
    (newR exR : List RawId) (τ : ℚ) (m : ℕ) (u : Option ℕ) {nl el : List ℤ}
    (hn : mapToInt newR = some nl) (he : mapToInt exR = some el) (hne : newR ≠ []) :
    calculate_global_cross_edges eng db interDb newR exR τ m u =
      .ok (resolveTitles eng (connectEdges eng db (dedupList nl)
            (dedupList (el.filter (fun n => ¬ n ∈ dedupList nl))) τ m).1,
          persistEdges db (db ++ interDb)
            (connectEdges eng db (dedupList nl)
              (dedupList (el.filter (fun n => ¬ n ∈ dedupList nl))) τ m).2 u) := by
  unfold calculate_global_cross_edges
  rw [if_neg hne, hn, he]

lemma mem_resolveTitles {V : Type} {eng : SearchEngine V} {d : EdgeDict} {e : OutEdge}
    (he : e ∈ resolveTitles eng d) :
    ∃ p ∈ d, eng.titles p.1.1 = some e.source ∧ eng.titles p.1.2 = some e.target ∧
      e.score = p.2 := by
  unfold resolveTitles at he
  rcases List.mem_filterMap.mp he with ⟨p, hp, hmap⟩
  cases h1 : eng.titles p.1.1 with
  | none =>
    rw [h1] at hmap
    cases hmap
  | some ts =>
    cases h2 : eng.titles p.1.2 with
    | none =>
      rw [h1, h2] at hmap
      cases hmap
    | some tt =>
      rw [h1, h2] at hmap
      cases hmap
      exact ⟨p, hp, h1, h2, rfl⟩


/-! ### Concrete engine instances used by witnesses and counterexamples -/

/-- An engine with no reconstruction capability and no metadata. -/
def engNone : SearchEngine ℤ :=
  ⟨false, fun _ => none, fun _ _ => 0, fun _ => none⟩

/-- A three-node engine: similarities 1-2 at 0.7 and 1-3 at 0.8, others below
threshold; titles A, B, C. -/
def engFanout : SearchEngine ℤ where
  can_reconstruct := true
  reconstruct := fun n => some n
  cos_sim := fun a b =>
    if a = b then 1
    else if (a = 1 ∧ b = 2) ∨ (a = 2 ∧ b = 1) then Rat.divInt 7 10
    else if (a = 1 ∧ b = 3) ∨ (a = 3 ∧ b = 1) then Rat.divInt 8 10
    else Rat.divInt 1 2
  titles := fun n =>
    if n = 1 then some "A" else if n = 2 then some "B"
    else if n = 3 then some "C" else none

/-- A four-node engine: similarities 1-2 at 0.9 and 3-4 at 0.8, cross pairs at
0.1; titles A-D. -/
def engConflict : SearchEngine ℤ where
  can_reconstruct := true
  reconstruct := fun n => some n
  cos_sim := fun a b =>
    if a = b then 1
    else if (a = 1 ∧ b = 2) ∨ (a = 2 ∧ b = 1) then Rat.divInt 9 10
    else if (a = 3 ∧ b = 4) ∨ (a = 4 ∧ b = 3) then Rat.divInt 8 10
    else Rat.divInt 1 10
  titles := fun n =>
    if n = 1 then some "A" else if n = 2 then some "B"
    else if n = 3 then some "C" else if n = 4 then some "D" else none

/-- A probe-only engine whose metadata maps 1 to A and 2 to B. -/
def engLow : SearchEngine ℤ :=
  ⟨false, fun _ => none, fun _ _ => 0,
    fun n => if n = 1 then some "A" else if n = 2 then some "B" else none⟩

/-- A probe-only engine whose metadata maps distinct ids 1 and 2 to the same
title T. -/
def engDupTitle : SearchEngine ℤ :=
  ⟨false, fun _ => none, fun _ _ => 0,
    fun n => if n = 1 then some "T" else if n = 2 then some "T" else none⟩

/-- A four-node engine on ids 1, 2, 3, 9 whose similarity pattern makes the
per-row duplicate cap fire on rows 3 and 9 before the pair (3, 9) is examined:
s(1,3)=0.95, s(1,9)=0.93, s(2,3)=0.94, s(2,9)=0.92, s(3,9)=0.8, s(1,2)=0.1. -/
def engCapRace : SearchEngine ℤ where
  can_reconstruct := true
  reconstruct := fun n => some n
  cos_sim := fun a b =>
    if a = b then 1
    else if (a = 1 ∧ b = 3) ∨ (a = 3 ∧ b = 1) then Rat.divInt 95 100
    else if (a = 1 ∧ b = 9) ∨ (a = 9 ∧ b = 1) then Rat.divInt 93 100
    else if (a = 2 ∧ b = 3) ∨ (a = 3 ∧ b = 2) then Rat.divInt 94 100
    else if (a = 2 ∧ b = 9) ∨ (a = 9 ∧ b = 2) then Rat.divInt 92 100
    else if (a = 3 ∧ b = 9) ∨ (a = 9 ∧ b = 3) then Rat.divInt 8 10
    else Rat.divInt 1 10
  titles := fun n =>
    if n = 1 then some "N1" else if n = 2 then some "N2"
    else if n = 3 then some "N3" else if n = 9 then some "N9" else none

/-- The edge list returned by the first engCapRace call. -/
def capRaceOut : List OutEdge :=
  [⟨"N1", "N3", Rat.divInt 95 100⟩, ⟨"N1", "N9", Rat.divInt 93 100⟩,
   ⟨"N2", "N3", Rat.divInt 94 100⟩, ⟨"N2", "N9", Rat.divInt 92 100⟩]

/-- The cache rows persisted by the first engCapRace call. -/
def capRaceRows : List CachedEdge :=
  [⟨1, 3, Rat.divInt 95 100, "all-MiniLM-L6-v2", none⟩,
   ⟨1, 9, Rat.divInt 93 100, "all-MiniLM-L6-v2", none⟩,
   ⟨2, 3, Rat.divInt 94 100, "all-MiniLM-L6-v2", none⟩,
   ⟨2, 9, Rat.divInt 92 100, "all-MiniLM-L6-v2", none⟩]

/-! ### C10 -/

/-- C10: a non-empty new-id list with an element of either id list not
convertible to an integer makes normalization raise, and the error propagates
to the caller rather than degrading to cache-only output. -/
theorem invalid_ids_raise {V : Type} (eng : SearchEngine V) (db interDb : List CachedEdge)
    (newR exR : List RawId) (τ : ℚ) (m : ℕ) (u : Option ℕ) (hne : newR ≠ [])
    (hbad : mapToInt newR = none ∨ mapToInt exR = none) :
    calculate_global_cross_edges eng db interDb newR exR τ m u = .error () := by
  unfold calculate_global_cross_edges
  rw [if_neg hne]
  rcases hbad with h | h
  · rw [h]
  · rw [h]
    cases hmn : mapToInt newR <;> rfl

/-- C10 witness: a non-numeric string id raises. -/
theorem invalid_ids_raise_witness :
    calculate_global_cross_edges engNone [] [] [.s "abc"] [] 1 5 none = .error () :=
  invalid_ids_raise engNone [] [] [.s "abc"] [] 1 5 none (by simp) (Or.inl rfl)

/-! ### C9 -/

/-- C9: without reconstruction capability the engine returns exactly the
title-resolved cache-probe edges and leaves the table unchanged (no error);
and every combined edge touching an id whose individual reconstruction fails
is cache-derived. -/
theorem reconstruction_failure_cache_only {V : Type} (eng : SearchEngine V)
    (db interDb : List CachedEdge) (newR exR : List RawId) (τ : ℚ) (m : ℕ) (u : Option ℕ)
    {nl el : List ℤ} (hn : mapToInt newR = some nl) (he : mapToInt exR = some el)
    (hne : newR ≠ []) :
    (eng.can_reconstruct = false →
      calculate_global_cross_edges eng db interDb newR exR τ m u =
        .ok (resolveTitles eng (probePhase db (dedupList nl)
              (dedupList (el.filter (fun n => ¬ n ∈ dedupList nl)))).1, db ++ interDb)) ∧
    (∀ A : ℤ, eng.reconstruct A = none →
      ∀ k v, (k, v) ∈ (connectEdges eng db (dedupList nl)
          (dedupList (el.filter (fun n => ¬ n ∈ dedupList nl))) τ m).1 →
        (k.1 = A ∨ k.2 = A) → ∃ r ∈ db, k = sortPair r.source_id r.target_id) := by
  constructor
  · intro hcap
    rw [engine_ok eng db interDb newR exR τ m u hn he hne]
    have hconn : connectEdges eng db (dedupList nl)
        (dedupList (el.filter (fun n => ¬ n ∈ dedupList nl))) τ m =
        ((probePhase db (dedupList nl)
          (dedupList (el.filter (fun n => ¬ n ∈ dedupList nl)))).1, []) := by
      unfold connectEdges
      rw [if_neg]
      rintro ⟨h1, _⟩
      rw [hcap] at h1
      exact Bool.false_ne_true h1
    rw [hconn, persistEdges_nil]
  · intro A hA k v hkv hend
    obtain ⟨E, h1, h2, h3⟩ := connectEdges_spec eng db (dedupList nl)
      (dedupList (el.filter (fun n => ¬ n ∈ dedupList nl))) τ m
    rw [congrArg Prod.fst h1] at hkv
    rcases List.mem_append.mp hkv with h | h
    · obtain ⟨r, hr, hq⟩ := probe_entries (k, v) h
      exact ⟨r, hr, congrArg Prod.fst hq⟩
    · exfalso
      rcases List.mem_map.mp h with ⟨e, heE, hpe⟩
      obtain ⟨-, -, -, -, -, -, hv1, hv2⟩ := h2 e heE
      have hk : (e.source_id, e.target_id) = k := congrArg Prod.fst hpe
      rcases hend with hend | hend
      · obtain ⟨v', hv'⟩ := hv1
        rw [show e.source_id = A from by rw [← hend, ← hk]] at hv'
        rw [hA] at hv'
        cases hv'
      · obtain ⟨v', hv'⟩ := hv2
        rw [show e.target_id = A from by rw [← hend, ← hk]] at hv'
        rw [hA] at hv'
        cases hv'

/-- C9 witness: a capability-less engine returns cache-only output, no error. -/
theorem reconstruction_failure_cache_only_witness :
    calculate_global_cross_edges engNone [] [] [.i 1] [] 1 5 none = .ok ([], []) := by
  have h := (reconstruction_failure_cache_only engNone [] [] [.i 1] [] 1 5 none
    (rfl : mapToInt [RawId.i 1] = some [1])
    (rfl : mapToInt ([] : List RawId) = some []) (by simp)).1 rfl
  exact h

/-! ### C4 -/

lemma rowLoop_cap (maxPer : ℕ) (A : ℤ) :
    ∀ (l : List (ℤ × ℚ)) (cnt : ℕ) (st : CState),
      (rowLoop maxPer A l cnt st).2.length ≤ st.2.length + (maxPer - cnt) := by
  intro l
  induction l with
  | nil =>
    intro cnt st
    simp [rowLoop]
  | cons c rest ih =>
    intro cnt st
    obtain ⟨t, s⟩ := c
    by_cases hstop : maxPer ≤ cnt
    · simp [rowLoop, hstop]
    · by_cases hself : A = t
      · rw [show rowLoop maxPer A ((t, s) :: rest) cnt st = rowLoop maxPer A rest cnt st
          from by simp [rowLoop, hstop, hself]]
        exact ih cnt st
      · by_cases hdup : hasKey st.1 (sortPair A t) = true
        · rw [show rowLoop maxPer A ((t, s) :: rest) cnt st =
              rowLoop maxPer A rest (cnt + 1) st
            from by simp [rowLoop, hstop, hself, hdup]]
          have := ih (cnt + 1) st
          omega
        · rw [show rowLoop maxPer A ((t, s) :: rest) cnt st =
              rowLoop maxPer A rest (cnt + 1)
                (dictSet st.1 (sortPair A t) s,
                 st.2 ++ [⟨(sortPair A t).1, (sortPair A t).2, s⟩])
            from by simp [rowLoop, hstop, hself, hdup]]
          have := ih (cnt + 1)
            (dictSet st.1 (sortPair A t) s,
             st.2 ++ [⟨(sortPair A t).1, (sortPair A t).2, s⟩])
          simp only [List.length_append, List.length_singleton] at this
          omega

/-- C4 (amended): one extraction row appends at most `max_edges_per_node`
edges to the `edges_to_save` buffer; a new node's row runs in up to two
passes (new-vs-new and new-vs-context), so one call can make it contribute up
to twice the cap. -/
theorem extract_row_capped (τ : ℚ) (maxPer : ℕ) (A : ℤ) (cands : List (ℤ × ℚ))
    (st : CState) :
    (extractRow τ maxPer A cands st).2.length ≤ st.2.length + maxPer := by
  have h := rowLoop_cap maxPer A (sortDesc (cands.filter (fun c => τ < c.2))) 0 st
  simpa using h

/-- C4 counterexample: with `max_edges_per_node = 1`, node 1 contributes the
edge to node 2 in the new-vs-new pass and the edge to context node 3 in the
new-vs-context pass, so two returned edges have node 1 (title A) as an
endpoint contributed by its rows, exceeding the cap. -/
theorem per_node_contribution_exceeds_cap :
    calculate_global_cross_edges engFanout [] [] [.i 1, .i 2] [.i 3]
        (Rat.divInt 62 100) 1 none =
      .ok ([⟨"A", "B", Rat.divInt 7 10⟩, ⟨"A", "C", Rat.divInt 8 10⟩],
        [⟨1, 2, Rat.divInt 7 10, "all-MiniLM-L6-v2", none⟩,
         ⟨1, 3, Rat.divInt 8 10, "all-MiniLM-L6-v2", none⟩]) ∧
    (([⟨"A", "B", Rat.divInt 7 10⟩, ⟨"A", "C", Rat.divInt 8 10⟩] : List OutEdge).filter
      (fun e => e.source == "A" || e.target == "A")).length = 2 :=
  ⟨rfl, by decide⟩

/-! ### C8 -/

/-- C8 (amended): persistence is one batch transaction per call: when any
staged edge conflicts with a concurrently inserted row, the whole batch is
rolled back (the table keeps only the concurrent rows), while the call still
returns its computed edge list without error. -/
theorem persist_conflict_rolls_back_batch {V : Type} (eng : SearchEngine V)
    (db interDb : List CachedEdge) (newR exR : List RawId) (τ : ℚ) (m : ℕ) (u : Option ℕ)
    {nl el : List ℤ} (hn : mapToInt newR = some nl) (he : mapToInt exR = some el)
    (hne : newR ≠ [])
    (hconf : ∃ e ∈ (connectEdges eng db (dedupList nl)
        (dedupList (el.filter (fun n => ¬ n ∈ dedupList nl))) τ m).2,
      dbHasKey db e.source_id e.target_id = false ∧
      dbHasKey (db ++ interDb) e.source_id e.target_id = true) :
    calculate_global_cross_edges eng db interDb newR exR τ m u =
      .ok (resolveTitles eng (connectEdges eng db (dedupList nl)
            (dedupList (el.filter (fun n => ¬ n ∈ dedupList nl))) τ m).1,
          db ++ interDb) := by
  rw [engine_ok eng db interDb newR exR τ m u hn he hne, persistEdges_of_conflict hconf]

/-- C8 witness: a conflicting concurrent row rolls the batch back; the edge
list is still returned and the table is exactly the concurrent state. -/
theorem persist_conflict_rolls_back_batch_witness :
    calculate_global_cross_edges engFanout []
        [⟨1, 2, Rat.divInt 95 100, "all-MiniLM-L6-v2", none⟩]
        [.i 1, .i 2] [] (Rat.divInt 62 100) 5 none =
      .ok ([⟨"A", "B", Rat.divInt 7 10⟩],
        [⟨1, 2, Rat.divInt 95 100, "all-MiniLM-L6-v2", none⟩]) := by
  have h := persist_conflict_rolls_back_batch engFanout []
    [⟨1, 2, Rat.divInt 95 100, "all-MiniLM-L6-v2", none⟩]
    [.i 1, .i 2] [] (Rat.divInt 62 100) 5 none
    (rfl : mapToInt [RawId.i 1, RawId.i 2] = some [1, 2])
    (rfl : mapToInt ([] : List RawId) = some [])
    (by simp) ⟨⟨1, 2, Rat.divInt 7 10⟩, by decide, by decide, by decide⟩
  exact h

/-- C8 counterexample: a uniqueness conflict on the edge 1-2 also discards the
independent extracted edge 3-4: the sibling edge is returned but not
persisted, contradicting per-edge independent transactions. -/
theorem persist_conflict_drops_sibling_edge :
    (calculate_global_cross_edges engConflict []
        [⟨1, 2, Rat.divInt 95 100, "all-MiniLM-L6-v2", none⟩]
        [.i 1, .i 2, .i 3, .i 4] [] (Rat.divInt 62 100) 5 none =
      .ok ([⟨"A", "B", Rat.divInt 9 10⟩, ⟨"C", "D", Rat.divInt 8 10⟩],
        [⟨1, 2, Rat.divInt 95 100, "all-MiniLM-L6-v2", none⟩])) ∧
    dbHasKey [⟨1, 2, Rat.divInt 95 100, "all-MiniLM-L6-v2", none⟩] 3 4 = false :=
  ⟨rfl, rfl⟩


/-! ### C1 -/

/-- C1 (amended): every returned edge has score strictly above the call's
threshold and distinct endpoints, provided every cached row already satisfies
score > τ and has distinct endpoints (computed edges satisfy this
unconditionally; cache-probe edges are returned with their stored score and
endpoints unchecked) and distinct ids carry distinct titles. -/
theorem connect_output_valid_of_cache_valid {V : Type} (eng : SearchEngine V)
    (db interDb : List CachedEdge) (newR exR : List RawId) (τ : ℚ) (m : ℕ) (u : Option ℕ)
    (out : List OutEdge) (db' : List CachedEdge)
    (hrun : calculate_global_cross_edges eng db interDb newR exR τ m u = .ok (out, db'))
    (hcache : ∀ r ∈ db, τ < r.score ∧ r.source_id ≠ r.target_id)
    (hinj : ∀ a b t, eng.titles a = some t → eng.titles b = some t → a = b) :
    ∀ e ∈ out, τ < e.score ∧ e.source ≠ e.target := by
  intro e he
  by_cases hne : newR = []
  · unfold calculate_global_cross_edges at hrun
    rw [if_pos hne, Except.ok.injEq, Prod.mk.injEq] at hrun
    rw [← hrun.1] at he
    simp at he
  · cases hmn : mapToInt newR with
    | none =>
      unfold calculate_global_cross_edges at hrun
      rw [if_neg hne, hmn] at hrun
      simp at hrun
    | some nl =>
      cases hme : mapToInt exR with
      | none =>
        unfold calculate_global_cross_edges at hrun
        rw [if_neg hne, hmn, hme] at hrun
        simp at hrun
      | some el =>
        rw [engine_ok eng db interDb newR exR τ m u hmn hme hne,
          Except.ok.injEq, Prod.mk.injEq] at hrun
        rw [← hrun.1] at he
        obtain ⟨p, hp, ht1, ht2, hsc⟩ := mem_resolveTitles he
        obtain ⟨E, h1, h2, h3⟩ := connectEdges_spec eng db (dedupList nl)
          (dedupList (el.filter (fun n => ¬ n ∈ dedupList nl))) τ m
        rw [congrArg Prod.fst h1] at hp
        rcases List.mem_append.mp hp with h | h
        · obtain ⟨r, hr, hq⟩ := probe_entries p h
          obtain ⟨hcs, hcn⟩ := hcache r hr
          constructor
          · rw [hsc, congrArg Prod.snd hq]
            exact hcs
          · have hlt := sortPair_lt hcn
            have hk : p.1 = sortPair r.source_id r.target_id := congrArg Prod.fst hq
            intro heq
            have := hinj p.1.1 p.1.2 e.source ht1 (heq ▸ ht2)
            rw [hk] at this
            exact absurd this (ne_of_lt hlt)
        · rcases List.mem_map.mp h with ⟨ed, hedE, hpe⟩
          obtain ⟨-, hlt, hsc', -⟩ := h2 ed hedE
          have hk : p.1 = (ed.source_id, ed.target_id) := (congrArg Prod.fst hpe).symm
          constructor
          · rw [hsc, ← congrArg Prod.snd hpe]
            exact hsc'
          · intro heq
            have := hinj p.1.1 p.1.2 e.source ht1 (heq ▸ ht2)
            rw [hk] at this
            exact absurd this (ne_of_lt hlt)

/-- C1 witness at a concrete cached edge above the threshold. -/
theorem connect_output_valid_witness :
    Rat.divInt 62 100 < Rat.divInt 7 10 ∧ ("A" : String) ≠ "B" := by
  have h := connect_output_valid_of_cache_valid engLow
    [⟨1, 2, Rat.divInt 7 10, "all-MiniLM-L6-v2", none⟩] [] [.i 1] [.i 2]
    (Rat.divInt 62 100) 5 none
    [⟨"A", "B", Rat.divInt 7 10⟩] [⟨1, 2, Rat.divInt 7 10, "all-MiniLM-L6-v2", none⟩]
    rfl
    (by
      intro r hr
      rw [List.mem_singleton] at hr
      subst hr
      exact ⟨by decide, by decide⟩)
    (by
      intro a b t ha hb
      simp only [engLow] at ha hb
      split_ifs at ha hb <;> simp_all <;> (rw [← ha] at hb; exact absurd hb (by decide)))
    ⟨"A", "B", Rat.divInt 7 10⟩ (by simp)
  exact h

/-- C1 counterexample: the cache probe returns rows unchecked, so a cached
score below the call's threshold is returned, and a title collision makes a
returned edge a self-loop at the title level. -/
theorem cache_probe_bypasses_threshold :
    (calculate_global_cross_edges engLow
        [⟨1, 2, Rat.divInt 1 10, "all-MiniLM-L6-v2", none⟩] []
        [.i 1] [.i 2] (Rat.divInt 62 100) 5 none =
      .ok ([⟨"A", "B", Rat.divInt 1 10⟩],
        [⟨1, 2, Rat.divInt 1 10, "all-MiniLM-L6-v2", none⟩]) ∧
      ¬ Rat.divInt 62 100 < Rat.divInt 1 10) ∧
    (calculate_global_cross_edges engDupTitle
        [⟨1, 2, Rat.divInt 9 10, "all-MiniLM-L6-v2", none⟩] []
        [.i 1] [.i 2] (Rat.divInt 62 100) 5 none =
      .ok ([⟨"T", "T", Rat.divInt 9 10⟩],
        [⟨1, 2, Rat.divInt 9 10, "all-MiniLM-L6-v2", none⟩])) :=
  ⟨⟨rfl, by decide⟩, rfl⟩

/-! ### C2 -/

/-- Two rows store the same unordered id pair. -/
def sameUnordered (r s : CachedEdge) : Prop :=
  (r.source_id = s.source_id ∧ r.target_id = s.target_id) ∨
  (r.source_id = s.target_id ∧ r.target_id = s.source_id)

/-- C2: a `connect()` call preserves the canonical-storage invariant: if every
row of the commit-time table (probe-time rows plus concurrent writers' rows)
has `source_id < target_id` and no two rows share an unordered pair, the same
holds for the table after the call; newly persisted edges are canonical. -/
theorem connect_preserves_cache_invariant {V : Type} (eng : SearchEngine V)
    (db interDb : List CachedEdge) (newR exR : List RawId) (τ : ℚ) (m : ℕ) (u : Option ℕ)
    (out : List OutEdge) (db' : List CachedEdge)
    (hrun : calculate_global_cross_edges eng db interDb newR exR τ m u = .ok (out, db'))
    (hsrc : ∀ r ∈ db ++ interDb, r.source_id < r.target_id)
    (hdist : (db ++ interDb).Pairwise (fun r s => ¬ sameUnordered r s)) :
    (∀ r ∈ db', r.source_id < r.target_id) ∧
      db'.Pairwise (fun r s => ¬ sameUnordered r s) := by
  by_cases hne : newR = []
  · unfold calculate_global_cross_edges at hrun
    rw [if_pos hne, Except.ok.injEq, Prod.mk.injEq] at hrun
    rw [← hrun.2]
    exact ⟨hsrc, hdist⟩
  · cases hmn : mapToInt newR with
    | none =>
      unfold calculate_global_cross_edges at hrun
      rw [if_neg hne, hmn] at hrun
      simp at hrun
    | some nl =>
      cases hme : mapToInt exR with
      | none =>
        unfold calculate_global_cross_edges at hrun
        rw [if_neg hne, hmn, hme] at hrun
        simp at hrun
      | some el =>
        rw [engine_ok eng db interDb newR exR τ m u hmn hme hne,
          Except.ok.injEq, Prod.mk.injEq] at hrun
        obtain ⟨-, hdb⟩ := hrun
        rw [← hdb]
        obtain ⟨E, h1, h2, h3⟩ := connectEdges_spec eng db (dedupList nl)
          (dedupList (el.filter (fun n => ¬ n ∈ dedupList nl))) τ m
        have hE : (connectEdges eng db (dedupList nl)
            (dedupList (el.filter (fun n => ¬ n ∈ dedupList nl))) τ m).2 = E :=
          congrArg Prod.snd h1
        rcases persistEdges_result db (db ++ interDb)
          (connectEdges eng db (dedupList nl)
            (dedupList (el.filter (fun n => ¬ n ∈ dedupList nl))) τ m).2 u with
          h | ⟨h, hnd, hfreshC⟩
        · rw [h]
          exact ⟨hsrc, hdist⟩
        · rw [h]
          constructor
          · intro r hr
            rcases List.mem_append.mp hr with h' | h'
            · exact hsrc r h'
            · rcases List.mem_map.mp h' with ⟨ed, hedf, hed⟩
              have hedE : ed ∈ E := hE ▸ (List.mem_filter.mp hedf).1
              have hlt := (h2 ed hedE).2.1
              rw [← hed]
              exact hlt
          · rw [List.pairwise_append]
            refine ⟨hdist, ?_, ?_⟩
            · rw [List.pairwise_map]
              rw [List.Nodup, List.pairwise_map] at hnd
              refine hnd.imp_of_mem ?_
              intro a b ha hb hne' hsame
              have haE : a ∈ E := hE ▸ (List.mem_filter.mp ha).1
              have hbE : b ∈ E := hE ▸ (List.mem_filter.mp hb).1
              have hal := (h2 a haE).2.1
              have hbl := (h2 b hbE).2.1
              rcases hsame with ⟨e1, e2⟩ | ⟨e1, e2⟩
              · exact hne' (by rw [Prod.mk.injEq]; exact ⟨e1, e2⟩)
              · rw [show a.source_id = b.target_id from e1,
                  show a.target_id = b.source_id from e2] at hal
                exact absurd hbl (not_lt.mpr hal.le)
            · intro r hr s hs hsame
              rcases List.mem_map.mp hs with ⟨ed, hedf, hed⟩
              have hfr := hfreshC ed hedf
              have hedE : ed ∈ E := hE ▸ (List.mem_filter.mp hedf).1
              have hedlt := (h2 ed hedE).2.1
              have hrlt := hsrc r hr
              rw [← hed] at hsame
              rcases hsame with ⟨e1, e2⟩ | ⟨e1, e2⟩
              · rw [dbHasKey_false_iff] at hfr
                exact hfr r hr ⟨e1, e2⟩
              · rw [show r.source_id = ed.target_id from e1,
                  show r.target_id = ed.source_id from e2] at hrlt
                exact absurd hedlt (not_lt.mpr hrlt.le)

/-- C2 witness: after a concrete persisting run, a stored row is canonical. -/
theorem connect_preserves_cache_invariant_witness : (1 : ℤ) < 2 := by
  have h := (connect_preserves_cache_invariant engFanout [] [] [.i 1, .i 2] [.i 3]
    (Rat.divInt 62 100) 1 none
    [⟨"A", "B", Rat.divInt 7 10⟩, ⟨"A", "C", Rat.divInt 8 10⟩]
    [⟨1, 2, Rat.divInt 7 10, "all-MiniLM-L6-v2", none⟩,
     ⟨1, 3, Rat.divInt 8 10, "all-MiniLM-L6-v2", none⟩]
    rfl (by simp) (by simp)).1
    ⟨1, 2, Rat.divInt 7 10, "all-MiniLM-L6-v2", none⟩ (by simp)
  exact h


/-! ### C3 -/

lemma probeStep_kept_eq {newIds exIds : List ℤ} {st : EdgeDict × List ℤ}
    {row : CachedEdge}
    (hone : row.source_id ∈ newIds ∨ row.target_id ∈ newIds)
    (hs : row.source_id ∈ newIds ∨ row.source_id ∈ exIds)
    (ht : row.target_id ∈ newIds ∨ row.target_id ∈ exIds) :
    (probeStep newIds exIds st row).1 =
      dictSet st.1 (sortPair row.source_id row.target_id) row.score := by
  simp only [probeStep]
  rw [if_pos hone]
  split_ifs <;> first | rfl | tauto

/-- Replaying freshly persisted canonical rows through the probe appends their
entries to the dict. -/
lemma probe_replay {newIds exIds : List ℤ} (u : Option ℕ) :
    ∀ (F : List EdgeData) (st : EdgeDict × List ℤ),
      (∀ e ∈ F, e.source_id < e.target_id ∧
        (e.source_id ∈ newIds ∨ e.source_id ∈ exIds) ∧
        (e.target_id ∈ newIds ∨ e.target_id ∈ exIds) ∧
        (e.source_id ∈ newIds ∨ e.target_id ∈ newIds) ∧
        (e.source_id, e.target_id) ∉ st.1.map Prod.fst) →
      (F.map (fun e => (e.source_id, e.target_id))).Nodup →
      ((F.map (fun e =>
          (⟨e.source_id, e.target_id, e.score, "all-MiniLM-L6-v2", u⟩ : CachedEdge))).foldl
        (probeStep newIds exIds) st).1 = st.1 ++ pairsOf F := by
  intro F
  induction F with
  | nil =>
    intro st _ _
    simp [pairsOf]
  | cons f F ih =>
    intro st hF hnd
    obtain ⟨hlt, hsn, htn, hon, hfresh⟩ := hF f (List.mem_cons_self f F)
    simp only [List.map_cons, List.foldl_cons]
    have hkept : (probeStep newIds exIds st
        (⟨f.source_id, f.target_id, f.score, "all-MiniLM-L6-v2", u⟩ : CachedEdge)).1 =
        st.1 ++ [((f.source_id, f.target_id), f.score)] := by
      rw [probeStep_kept_eq hon hsn htn]
      dsimp only
      rw [sortPair_of_lt hlt]
      exact dictSet_of_not_hasKey (not_hasKey_iff.mpr hfresh)
    rw [List.map_cons, List.nodup_cons] at hnd
    have hnd' := hnd.2
    have hhead := hnd.1
    have ihh := ih (probeStep newIds exIds st
      (⟨f.source_id, f.target_id, f.score, "all-MiniLM-L6-v2", u⟩ : CachedEdge)) ?_ hnd'
    · rw [ihh, hkept]
      simp [pairsOf]
    · intro e he
      obtain ⟨h1, h2, h3, h4, h5⟩ := hF e (List.mem_cons_of_mem f he)
      refine ⟨h1, h2, h3, h4, ?_⟩
      rw [hkept, List.map_append]
      intro hmem
      rcases List.mem_append.mp hmem with h | h
      · exact h5 h
      · simp only [List.map_cons, List.map_nil, List.mem_singleton] at h
        exact hhead (by rw [← h]; exact List.mem_map_of_mem _ he)

/-- C3 (amended): when every new id is resolved by the second call's cache
probe (the spec's accepted partially-cached-node tradeoff excluded), a repeat
call with identical arguments and no interleaved external writes returns the
identical edge list and performs zero additional cache writes. -/
theorem connect_second_call_noop {V : Type} (eng : SearchEngine V) (db : List CachedEdge)
    (newR exR : List RawId) (τ : ℚ) (m : ℕ) (u₁ u₂ : Option ℕ)
    {nl el : List ℤ} (hn : mapToInt newR = some nl) (he : mapToInt exR = some el)
    (hne : newR ≠ []) (out : List OutEdge) (db₁ : List CachedEdge)
    (hrun : calculate_global_cross_edges eng db [] newR exR τ m u₁ = .ok (out, db₁))
    (hres : ∀ n ∈ dedupList nl, n ∈ (probePhase db₁ (dedupList nl)
      (dedupList (el.filter (fun x => ¬ x ∈ dedupList nl)))).2) :
    calculate_global_cross_edges eng db₁ [] newR exR τ m u₂ = .ok (out, db₁) := by
  rw [engine_ok eng db [] newR exR τ m u₁ hn he hne,
    Except.ok.injEq, Prod.mk.injEq] at hrun
  obtain ⟨hout, hdb⟩ := hrun
  obtain ⟨E, h1, h2, h3⟩ := connectEdges_spec eng db (dedupList nl)
    (dedupList (el.filter (fun x => ¬ x ∈ dedupList nl))) τ m
  have hE2 : (connectEdges eng db (dedupList nl)
      (dedupList (el.filter (fun x => ¬ x ∈ dedupList nl))) τ m).2 = E :=
    congrArg Prod.snd h1
  have hfresh : ∀ e ∈ E, dbHasKey db e.source_id e.target_id = false := by
    intro e he'
    rw [dbHasKey_false_iff]
    rintro r hr ⟨hr1, hr2⟩
    obtain ⟨hkeys, hlt, -, hsn, htn, hon, -⟩ := h2 e he'
    apply hkeys
    have hpk := @probe_keeps (dedupList nl)
      (dedupList (el.filter (fun x => ¬ x ∈ dedupList nl))) db r
      hr (by rw [hr1]; exact hsn) (by rw [hr2]; exact htn) (by rw [hr1, hr2]; exact hon)
    rw [hr1, hr2, sortPair_of_lt hlt] at hpk
    exact hpk
  have hfilter : E.filter (fun e => !dbHasKey db e.source_id e.target_id) = E := by
    apply List.filter_eq_self.mpr
    intro e he'
    rw [hfresh e he']
    rfl
  have hpersist : persistEdges db (db ++ [])
      (connectEdges eng db (dedupList nl)
        (dedupList (el.filter (fun x => ¬ x ∈ dedupList nl))) τ m).2 u₁ =
      db ++ E.map (fun e =>
        (⟨e.source_id, e.target_id, e.score, "all-MiniLM-L6-v2", u₁⟩ : CachedEdge)) := by
    rw [List.append_nil, hE2,
      persistEdges_of_commit (by rw [hfilter]; exact h3) (by rw [hfilter]; exact hfresh),
      hfilter]
  have hdb1 : db₁ = db ++ E.map (fun e =>
      (⟨e.source_id, e.target_id, e.score, "all-MiniLM-L6-v2", u₁⟩ : CachedEdge)) := by
    rw [← hdb, hpersist]
  have hprobe2 : (probePhase db₁ (dedupList nl)
      (dedupList (el.filter (fun x => ¬ x ∈ dedupList nl)))).1 =
      (probePhase db (dedupList nl)
        (dedupList (el.filter (fun x => ¬ x ∈ dedupList nl)))).1 ++ pairsOf E := by
    rw [hdb1]
    unfold probePhase
    rw [List.foldl_append]
    exact probe_replay u₁ E _ (fun e he' => by
      obtain ⟨hkeys, hlt, -, hsn, htn, hon, -⟩ := h2 e he'
      exact ⟨hlt, hsn, htn, hon, hkeys⟩) h3
  have hcompute2 : (dedupList nl).filter (fun n => ¬ n ∈ (probePhase db₁ (dedupList nl)
      (dedupList (el.filter (fun x => ¬ x ∈ dedupList nl)))).2) = [] := by
    apply List.filter_eq_nil_iff.mpr
    intro n hnn
    simp only [decide_eq_true_eq]
    exact not_not_intro (hres n hnn)
  have hconn2 : connectEdges eng db₁ (dedupList nl)
      (dedupList (el.filter (fun x => ¬ x ∈ dedupList nl))) τ m =
      ((probePhase db₁ (dedupList nl)
        (dedupList (el.filter (fun x => ¬ x ∈ dedupList nl)))).1, []) := by
    unfold connectEdges
    rw [if_neg]
    rintro ⟨-, hcc⟩
    exact hcc hcompute2
  have h1fst : (connectEdges eng db (dedupList nl)
      (dedupList (el.filter (fun x => ¬ x ∈ dedupList nl))) τ m).1 =
      (probePhase db (dedupList nl)
        (dedupList (el.filter (fun x => ¬ x ∈ dedupList nl)))).1 ++ pairsOf E :=
    congrArg Prod.fst h1
  rw [engine_ok eng db₁ [] newR exR τ m u₂ hn he hne, hconn2]
  show Except.ok (resolveTitles eng (probePhase db₁ (dedupList nl)
      (dedupList (el.filter (fun x => ¬ x ∈ dedupList nl)))).1,
    persistEdges db₁ (db₁ ++ []) [] u₂) = Except.ok (out, db₁)
  rw [persistEdges_nil, List.append_nil, hprobe2, ← h1fst, hout]

/-- C3 witness: with the single pair fully cached, the repeat call returns the
identical edge list and writes nothing. -/
theorem connect_second_call_noop_witness :
    calculate_global_cross_edges engLow
      [⟨1, 2, Rat.divInt 9 10, "all-MiniLM-L6-v2", none⟩] []
      [.i 2] [.i 1] (Rat.divInt 62 100) 2 none =
      .ok ([⟨"A", "B", Rat.divInt 9 10⟩],
        [⟨1, 2, Rat.divInt 9 10, "all-MiniLM-L6-v2", none⟩]) :=
  connect_second_call_noop engLow
    [⟨1, 2, Rat.divInt 9 10, "all-MiniLM-L6-v2", none⟩]
    [.i 2] [.i 1] (Rat.divInt 62 100) 2 none none rfl rfl (by simp)
    [⟨"A", "B", Rat.divInt 9 10⟩]
    [⟨1, 2, Rat.divInt 9 10, "all-MiniLM-L6-v2", none⟩]
    rfl (by decide)

/-- C3 counterexample: an immediate repeat call with identical arguments and no
interleaved external writes is not a no-op: the first call's per-row duplicate
cap skips the pair (3, 9), the cache probe of the second call leaves ids 3 and
9 outside the resolved set, and the second call recomputes them, returns one
more edge, and persists one more cache row. -/
theorem second_call_not_idempotent :
    calculate_global_cross_edges engCapRace [] [] [.i 1, .i 2, .i 3, .i 9] []
        (Rat.divInt 62 100) 2 none = .ok (capRaceOut, capRaceRows) ∧
    calculate_global_cross_edges engCapRace capRaceRows [] [.i 1, .i 2, .i 3, .i 9] []
        (Rat.divInt 62 100) 2 none =
      .ok (capRaceOut ++ [⟨"N3", "N9", Rat.divInt 8 10⟩],
        capRaceRows ++ [⟨3, 9, Rat.divInt 8 10, "all-MiniLM-L6-v2", none⟩]) ∧
    capRaceOut ++ [⟨"N3", "N9", Rat.divInt 8 10⟩] ≠ capRaceOut ∧
    capRaceRows ++ [⟨3, 9, Rat.divInt 8 10, "all-MiniLM-L6-v2", none⟩] ≠ capRaceRows :=
  ⟨rfl, rfl, by decide, by decide⟩

end WikiExplorer
